import Mathlib

/-!
Verification of the entity/component store (`Scene`) of the vulkan_engine
repository, shallowly embedded from `src/engine/ecs.rs`.

Modelling choices, all documented inline:
* `Entity = usize` becomes `Nat`; `TypeId` becomes a `Key := Nat` (each Rust
  component type `T` corresponds to one key); the component payload of every
  type is modelled by a single value type `Val := Nat`, since the store never
  inspects payloads and the downcast from the type-erased column to
  `Vec<(Entity, T)>` is keyed by the same `TypeId` used to store it, so it
  cannot fail.
* The two `HashMap`s (`entities`, `component_vecs`) are modelled as
  association lists with nodup keys; `alInsert` overwrites the value of an
  existing key in place (as `HashMap::insert` does) and appends a fresh key.
* Rust panics (`assert!`, `.unwrap()`, `Vec::swap_remove` out of bounds,
  `HashMap` indexing) are modelled by `Option`: `none` is a panic.
* The `while` loop of `remove_entity` is modelled with explicit fuel;
  each iteration pops exactly one reference, so fuel `refs.length + 1`
  reproduces the loop exactly.
-/

abbrev Entity := Nat
abbrev Key := Nat
abbrev Val := Nat

/-- Insert-or-replace for the association-list model of `HashMap`:
replaces the value of an existing key in place, appends a fresh key. -/
def alInsert {β : Type} : List (Nat × β) → Nat → β → List (Nat × β)
  | [], k, v => [(k, v)]
  | (k', v') :: rest, k, v =>
    if k' = k then (k, v) :: rest else (k', v') :: alInsert rest k v

/-- Key lookup for the association-list model of `HashMap::get` /
`HashMap::contains_key`. -/
def alLookup {β : Type} : List (Nat × β) → Nat → Option β
  | [], _ => none
  | (k', v') :: rest, k => if k' = k then some v' else alLookup rest k

/-- Key removal for the association-list model of `HashMap::remove`. -/
def alRemove {β : Type} : List (Nat × β) → Nat → List (Nat × β)
  | [], _ => []
  | (k', v') :: rest, k => if k' = k then rest else (k', v') :: alRemove rest k

/-- Model of `Vec::swap_remove(index)`: overwrite position `index` with the
last element and drop the last element; `none` models the out-of-bounds
panic. -/
def swapRemove {α : Type} (v : List α) (index : Nat) : Option (List α) :=
  match v.getLast? with
  | none => none
  | some last => if index < v.length then some ((v.set index last).dropLast) else none

/-- Model of `ComponentVec::get_entity`: the entity field of the row at
`index`, if any. -/
def getEntity (v : List (Entity × Val)) (index : Nat) : Option Entity :=
  (v[index]?).map Prod.fst

/-- The in-place rewrite performed by `Scene::update_entity`'s `for` loop:
the first entry equal to `(type_id, old_index)` becomes
`(type_id, new_index)`; later entries are untouched (the loop `return`s). -/
def updateFirst : List (Key × Nat) → Key → Nat → Nat → List (Key × Nat)
  | [], _, _, _ => []
  | (k, i) :: rest, type_id, old_index, new_index =>
    if k = type_id ∧ i = old_index then (type_id, new_index) :: rest
    else (k, i) :: updateFirst rest type_id old_index new_index

/-- The entity/component store of `ecs.rs` (`struct Scene`).  The
`material_manager`, `camera` and `vulkan_context` fields are opaque
engine services never touched by the entity/component operations and are
outside the scope of the store's data model, so they are omitted. -/
structure Scene where
  entities : List (Entity × List (Key × Nat))
  component_vecs : List (Key × List (Entity × Val))
deriving Repr, DecidableEq

/-- `Scene::new`: both maps empty. -/
def Scene.empty : Scene := ⟨[], []⟩

/-- `Scene::entity_count`. -/
def Scene.entity_count (s : Scene) : Nat := s.entities.length

/-- `Scene::spawn_entity`: the new handle is `self.entities.len()`; the
`HashMap::insert` overwrites any entry already stored under that key. -/
def Scene.spawn_entity (s : Scene) : Entity × Scene :=
  let entity := s.entities.length
  (entity, { s with entities := alInsert s.entities entity [] })

/-- `Scene::entities`: the list of live handles (keys of the directory). -/
def Scene.entities_list (s : Scene) : List Entity := s.entities.map Prod.fst

/-- `Scene::entity_components` (read accessor; `none` models the assert). -/
def Scene.entity_components (s : Scene) (entity : Entity) : Option (List (Key × Nat)) :=
  alLookup s.entities entity

/-- `Scene::components::<T>`: the column registered under `T`'s key, if
any; the downcast cannot fail since the registry key determines the
column's element type. -/
def Scene.components (s : Scene) (key : Key) : Option (List (Entity × Val)) :=
  alLookup s.component_vecs key

/-- `Scene::entity_add_component::<T>(entity, component)` with `key` playing
the role of `TypeId::of::<T>()`: `none` models the
`assert!(self.entities.contains_key(..))` panic; otherwise either push onto
the existing column and record `(key, old_len)`, or lazily create the
column with the single row and record `(key, 0)`. -/
def Scene.entity_add_component (s : Scene) (key : Key) (entity : Entity) (component : Val) :
    Option Scene :=
  match alLookup s.entities entity with
  | none => none
  | some refs =>
    match alLookup s.component_vecs key with
    | some cv =>
      some { s with
        entities := alInsert s.entities entity (refs ++ [(key, cv.length)]),
        component_vecs := alInsert s.component_vecs key (cv ++ [(entity, component)]) }
    | none =>
      some { s with
        entities := alInsert s.entities entity (refs ++ [(key, 0)]),
        component_vecs := alInsert s.component_vecs key [(entity, component)] }

/-- `Scene::update_entity`: rewrite, inside `entity`'s reference list, the
first entry equal to `(type_id, old_index)` to `(type_id, new_index)`;
`none` models the `.unwrap()` on the directory lookup. -/
def Scene.update_entity (s : Scene) (entity : Entity) (type_id : Key)
    (old_index new_index : Nat) : Option Scene :=
  match alLookup s.entities entity with
  | none => none
  | some refs =>
    some { s with entities := alInsert s.entities entity (updateFirst refs type_id old_index new_index) }

/-- `Scene::entity_remove_last_component`: pop the last reference
`(type_id, index)` (no-op if the list is empty), `swap_remove` row `index`
of that column, and if the freed slot is still in range repoint the entry
`(type_id, new_len)` of the entity whose row moved into it.  Every `none`
is one of the function's `.unwrap()`/indexing panics.  The source pops
first and then mutates the column; since the pop only touches `entities`
and the column lookup only touches `component_vecs`, the two record
updates are written out together at the end of each branch. -/
def Scene.entity_remove_last_component (s : Scene) (entity : Entity) : Option Scene :=
  match alLookup s.entities entity with
  | none => none
  | some refs =>
    match refs.getLast? with
    | none => some s
    | some (type_id, index) =>
      match alLookup s.component_vecs type_id with
      | none => none
      | some cv =>
        match swapRemove cv index with
        | none => none
        | some cv' =>
          if index < cv'.length then
            match getEntity cv' index with
            | none => none
            | some entity_to_update =>
              Scene.update_entity
                ⟨alInsert s.entities entity refs.dropLast,
                  alInsert s.component_vecs type_id cv'⟩
                entity_to_update type_id cv'.length index
          else
            some ⟨alInsert s.entities entity refs.dropLast,
              alInsert s.component_vecs type_id cv'⟩

/-- The `while !self.entities[&entity].is_empty()` loop of
`Scene::remove_entity`, with explicit fuel; each iteration pops exactly one
reference, so the caller's fuel `refs.length + 1` reproduces the loop. -/
def Scene.removeAll (s : Scene) (entity : Entity) : Nat → Option Scene
  | 0 => none
  | fuel + 1 =>
    match alLookup s.entities entity with
    | none => none
    | some refs =>
      if refs.isEmpty then some s
      else
        match s.entity_remove_last_component entity with
        | none => none
        | some s' => s'.removeAll entity fuel

/-- `Scene::remove_entity`: `none` models the
`assert!(self.entities.contains_key(..))` panic; otherwise remove the
entity's components last-first until its list is empty, then delete its
directory entry. -/
def Scene.remove_entity (s : Scene) (entity : Entity) : Option Scene :=
  match alLookup s.entities entity with
  | none => none
  | some refs =>
    match s.removeAll entity (refs.length + 1) with
    | none => none
    | some s' => some { s' with entities := alRemove s'.entities entity }

/-- One public store operation, for stating trace properties. -/
inductive Op where
  | spawnE : Op
  | removeE (entity : Entity) : Op
  | addC (key : Key) (entity : Entity) (value : Val) : Op
deriving Repr, DecidableEq

/-- Apply one operation; `none` is a panic. -/
def Scene.applyOp (s : Scene) : Op → Option Scene
  | .spawnE => some (s.spawn_entity).2
  | .removeE e => s.remove_entity e
  | .addC k e v => s.entity_add_component k e v

/-- Run a sequence of operations; `none` as soon as one panics. -/
def Scene.exec (s : Scene) : List Op → Option Scene
  | [] => some s
  | op :: ops =>
    match s.applyOp op with
    | none => none
    | some s' => s'.exec ops

/-! ## The four cross-reference invariants of the data model (spec §3) -/

/-- Structural well-formedness of the `HashMap` models: nodup keys. -/
def Scene.WF (s : Scene) : Prop :=
  (s.entities.map Prod.fst).Nodup ∧ (s.component_vecs.map Prod.fst).Nodup

/-- Invariant 1: every directory reference `(k, i)` of entity `e` points at
a row of column `k` whose entity field is `e`. -/
def Scene.Inv1 (s : Scene) : Prop :=
  ∀ p ∈ s.entities, ∀ r ∈ p.2,
    ((alLookup s.component_vecs r.1).bind (fun c => getEntity c r.2)) = some p.1

/-- Invariant 2: every row at index `i` with entity `e` is pointed at by
exactly one reference `(columnKey, i)` in `e`'s directory list (so in
particular `e` is live). -/
def Scene.Inv2 (s : Scene) : Prop :=
  ∀ q ∈ s.component_vecs, ∀ p ∈ q.2.enum,
    ((alLookup s.entities p.2.1).map (fun refs => List.count (q.1, p.1) refs)) = some 1

/-- The owners of column `k`: one occurrence of `p.1` per reference of
entity `p.1` into column `k`. -/
def ownersOf (s : Scene) (k : Key) : List Entity :=
  s.entities.flatMap (fun p => (p.2.filter (fun r => r.1 == k)).map (fun _ => p.1))

/-- Invariant 3: the entities appearing in a column's rows are exactly
those owning a reference into it, one occurrence per reference. -/
def Scene.Inv3 (s : Scene) : Prop :=
  ∀ q ∈ s.component_vecs, (q.2.map Prod.fst).Perm (ownersOf s q.1)

/-- Invariant 4: a removed entity leaves no residue: every row's entity
field names a live entity (directory size = live-entity count holds by
definition, the directory being the record of liveness). -/
def Scene.Inv4 (s : Scene) : Prop :=
  ∀ q ∈ s.component_vecs, ∀ r ∈ q.2, (alLookup s.entities r.1).isSome = true

/-- The full consistency scan of spec §3. -/
def Scene.Inv (s : Scene) : Prop := s.Inv1 ∧ s.Inv2 ∧ s.Inv3 ∧ s.Inv4

instance (s : Scene) : Decidable (Scene.Inv1 s) := by
  unfold Scene.Inv1; infer_instance

instance (s : Scene) : Decidable (Scene.Inv2 s) := by
  unfold Scene.Inv2; infer_instance

instance (s : Scene) : Decidable (Scene.Inv3 s) := by
  unfold Scene.Inv3; infer_instance

instance (s : Scene) : Decidable (Scene.Inv4 s) := by
  unfold Scene.Inv4; infer_instance

instance (s : Scene) : Decidable (Scene.Inv s) := by
  unfold Scene.Inv; infer_instance

instance (s : Scene) : Decidable (Scene.WF s) := by
  unfold Scene.WF; infer_instance

/-! ## Diagnostics (`impl Display for Scene`) -/

/-- The entity section of the `Display` rendering: entities sorted by
handle, each with its list of (type-name, row-index) pairs.  `names`
models `inner_type_name().split(":").last()`, which depends only on the
column's component type, i.e. on the key; the `entity_components` call of
the source cannot fail there because the entity comes from the key set,
hence the `getD`. -/
def Scene.displayEntitySection (names : Key → String) (s : Scene) : String :=
  let ents := List.insertionSort (fun a b => a ≤ b) s.entities_list
  "Entities: \x7b\n" ++
    String.join (ents.map (fun e =>
      let comps := ((s.entity_components e).getD []).map (fun r => (names r.1, r.2))
      "\t" ++ toString e ++ ": " ++ toString comps ++ "\n")) ++
    "\x7d\n"

/-- The per-component-type section of the `Display` rendering: for each
registered column, in registry iteration order, the owning entities in
column row order (the source reads them via `get_entity(i)` for
`i < len`, which is exactly the row-order entity list). -/
def Scene.displayColumnSection (names : Key → String) (s : Scene) : String :=
  String.join (s.component_vecs.map (fun q =>
    names q.1 ++ ": " ++ toString (q.2.map Prod.fst) ++ "\n"))

/-- The full `Display` rendering of a `Scene`. -/
def Scene.display (names : Key → String) (s : Scene) : String :=
  s.displayEntitySection names ++ s.displayColumnSection names

/-- Two stores have equal contents when their directories and their column
registries agree as finite maps, i.e. up to the (semantically
meaningless) iteration order of the two hash maps. -/
def Scene.contentsEqv (s₁ s₂ : Scene) : Prop :=
  s₁.entities.Perm s₂.entities ∧ s₁.component_vecs.Perm s₂.component_vecs

instance (s₁ s₂ : Scene) : Decidable (Scene.contentsEqv s₁ s₂) := by
  unfold Scene.contentsEqv; infer_instance

/-- Number of spawn operations in a trace (`spawn_entity` never fails). -/
def Op.isSpawn : Op → Bool
  | .spawnE => true
  | _ => false

/-- Number of remove operations in a trace. -/
def Op.isRemove : Op → Bool
  | .removeE _ => true
  | _ => false

/-! ## Claim C1 -/

/-- C1: refuted as stated.  `spawn_entity` hands out `entities.len()` as
the new handle, so once an entity has been removed a later spawn reuses a
handle: after the successful operation sequence spawn, spawn,
add_component(key 0, entity 1), remove_entity(0), spawn, the store is
`⟨[(1, [])], [(0, [(1, 7)])]⟩` — the fifth operation re-inserted handle 1
over the live entity 1, emptying its reference list — and the consistency
scan fails: row `(1, 7)` of column 0 is referenced by no directory entry
(invariants 2 and 3 of spec §3 are violated after the fifth operation). -/
theorem c1_invariants_fail_after_respawn :
    Scene.exec Scene.empty [.spawnE, .spawnE, .addC 0 1 7, .removeE 0, .spawnE] =
      some ⟨[(1, [])], [(0, [(1, 7)])]⟩ ∧
    ¬ (Scene.mk [(1, [])] [(0, [(1, 7)])]).Inv := by
  constructor
  · decide
  · decide

/-! ## Claim C2 -/

/-- C2: refuted as stated.  Starting from the empty store: the second
spawn returns handle 1; after removing entity 0, the next spawn returns
handle 1 again — a handle that was previously returned and is still
live — because `spawn_entity` computes the handle as `entities.len()`,
which shrank back to 1 after the removal. -/
theorem c2_spawn_reuses_handle :
    (Scene.empty.spawn_entity.2.spawn_entity).1 = 1 ∧
    ((Scene.empty.spawn_entity.2.spawn_entity).2.remove_entity 0 =
      some ⟨[(1, [])], []⟩) ∧
    ((Scene.mk [(1, [])] []).spawn_entity).1 = 1 ∧
    (alLookup (Scene.mk [(1, [])] []).entities 1).isSome = true := by
  refine ⟨by decide, by decide, by decide, by decide⟩

/-! ## Claim C5 -/

/-- C5: refuted as stated.  The successful trace spawn, spawn,
remove_entity(0), spawn contains three spawns and one removal, yet the
final store holds a single live entity (the last spawn overwrote live
entity 1 instead of creating a new one), so `entities().len()` and
`entity_count()` are 1, not 3 - 1 = 2. -/
theorem c5_count_mismatch :
    (([Op.spawnE, Op.spawnE, Op.removeE 0, Op.spawnE].filter Op.isSpawn).length = 3) ∧
    (([Op.spawnE, Op.spawnE, Op.removeE 0, Op.spawnE].filter Op.isRemove).length = 1) ∧
    Scene.exec Scene.empty [.spawnE, .spawnE, .removeE 0, .spawnE] =
      some ⟨[(1, [])], []⟩ ∧
    (Scene.mk [(1, [])] []).entities_list.length = 1 ∧
    (Scene.mk [(1, [])] []).entity_count = 1 ∧
    (1 : Nat) ≠ 3 - 1 := by
  refine ⟨by decide, by decide, by decide, by decide, by decide, by decide⟩

/-! ## Association-list toolkit -/

theorem alLookup_alInsert {β : Type} (m : List (Nat × β)) (k j : Nat) (v : β) :
    alLookup (alInsert m k v) j = if k = j then some v else alLookup m j := by
  induction m with
  | nil => simp [alInsert, alLookup]
  | cons p rest ih =>
    obtain ⟨k', v'⟩ := p
    by_cases h1 : k' = k
    · subst h1
      by_cases h2 : k' = j <;> simp [alInsert, alLookup, h2]
    · by_cases h2 : k' = j
      · subst h2
        have h3 : ¬ k = k' := fun h => h1 h.symm
        simp [alInsert, alLookup, h1, h3]
      · simp [alInsert, alLookup, h1, h2, ih]

theorem alLookup_isSome_iff {β : Type} (m : List (Nat × β)) (k : Nat) :
    (alLookup m k).isSome = true ↔ k ∈ m.map Prod.fst := by
  induction m with
  | nil => simp [alLookup]
  | cons p rest ih =>
    obtain ⟨k', v'⟩ := p
    by_cases h : k' = k <;> simp [alLookup, h, ih]
    exact fun h2 => absurd h2.symm h

theorem alLookup_eq_none_iff {β : Type} (m : List (Nat × β)) (k : Nat) :
    alLookup m k = none ↔ k ∉ m.map Prod.fst := by
  rw [← alLookup_isSome_iff]
  cases alLookup m k <;> simp

theorem alLookup_mem {β : Type} {m : List (Nat × β)} {k : Nat} {v : β}
    (h : alLookup m k = some v) : (k, v) ∈ m := by
  induction m with
  | nil => simp [alLookup] at h
  | cons p rest ih =>
    obtain ⟨k', v'⟩ := p
    by_cases h1 : k' = k
    · subst h1
      simp [alLookup] at h
      simp [h]
    · simp [alLookup, h1] at h
      exact List.mem_cons_of_mem _ (ih h)

theorem alLookup_of_mem {β : Type} {m : List (Nat × β)} {k : Nat} {v : β}
    (hn : (m.map Prod.fst).Nodup) (h : (k, v) ∈ m) : alLookup m k = some v := by
  induction m with
  | nil => simp at h
  | cons p rest ih =>
    obtain ⟨k', v'⟩ := p
    rw [List.map_cons, List.nodup_cons] at hn
    rcases List.mem_cons.mp h with h0 | h0
    · obtain ⟨rfl, rfl⟩ : k' = k ∧ v' = v := by
        exact ⟨congrArg Prod.fst h0.symm, congrArg Prod.snd h0.symm⟩
      simp [alLookup]
    · by_cases h1 : k' = k
      · subst h1
        exact absurd (List.mem_map.mpr ⟨(k', v), h0, rfl⟩) hn.1
      · simp [alLookup, h1]
        exact ih hn.2 h0

theorem alInsert_keys_of_mem {β : Type} {m : List (Nat × β)} {k : Nat} (v : β)
    (h : k ∈ m.map Prod.fst) : (alInsert m k v).map Prod.fst = m.map Prod.fst := by
  induction m with
  | nil => simp at h
  | cons p rest ih =>
    obtain ⟨k', v'⟩ := p
    by_cases h1 : k' = k
    · subst h1; simp [alInsert]
    · rw [List.map_cons] at h
      rcases List.mem_cons.mp h with h0 | h0
      · exact absurd h0.symm h1
      · simp [alInsert, h1, ih h0]

theorem alInsert_keys_of_not_mem {β : Type} {m : List (Nat × β)} {k : Nat} (v : β)
    (h : k ∉ m.map Prod.fst) : (alInsert m k v).map Prod.fst = m.map Prod.fst ++ [k] := by
  induction m with
  | nil => simp [alInsert]
  | cons p rest ih =>
    obtain ⟨k', v'⟩ := p
    rw [List.map_cons] at h
    by_cases h1 : k' = k
    · exact absurd (h1 ▸ List.mem_cons_self k' _) h
    · have h2 : k ∉ rest.map Prod.fst := fun hm => h (List.mem_cons_of_mem _ hm)
      simp [alInsert, h1, ih h2]

theorem alInsert_nodup {β : Type} {m : List (Nat × β)} (k : Nat) (v : β)
    (h : (m.map Prod.fst).Nodup) : ((alInsert m k v).map Prod.fst).Nodup := by
  by_cases hk : k ∈ m.map Prod.fst
  · rw [alInsert_keys_of_mem v hk]; exact h
  · rw [alInsert_keys_of_not_mem v hk]
    refine List.Nodup.append h (List.nodup_singleton k) ?_
    intro a ha hak
    rw [List.mem_singleton] at hak
    exact hk (hak ▸ ha)

theorem alRemove_keys {β : Type} (m : List (Nat × β)) (k : Nat)
    (hn : (m.map Prod.fst).Nodup) :
    ∀ j, j ∈ (alRemove m k).map Prod.fst ↔ j ∈ m.map Prod.fst ∧ j ≠ k := by
  induction m with
  | nil => intro j; simp [alRemove]
  | cons p rest ih =>
    obtain ⟨k', v'⟩ := p
    rw [List.map_cons, List.nodup_cons] at hn
    intro j
    by_cases h1 : k' = k
    · subst h1
      simp only [alRemove, if_pos rfl, List.map_cons, List.mem_cons]
      constructor
      · intro hj
        refine ⟨Or.inr hj, fun hjk => hn.1 (hjk ▸ hj)⟩
      · rintro ⟨(rfl | hj), hjk⟩
        · exact absurd rfl hjk
        · exact hj
    · simp only [alRemove, if_neg h1, List.map_cons, List.mem_cons]
      rw [ih hn.2 j]
      constructor
      · rintro (rfl | ⟨hj, hjk⟩)
        · exact ⟨Or.inl rfl, fun hc => h1 hc⟩
        · exact ⟨Or.inr hj, hjk⟩
      · rintro ⟨(rfl | hj), hjk⟩
        · exact Or.inl rfl
        · exact Or.inr ⟨hj, hjk⟩

theorem alLookup_alRemove_ne {β : Type} (m : List (Nat × β)) {k j : Nat} (h : k ≠ j) :
    alLookup (alRemove m k) j = alLookup m j := by
  induction m with
  | nil => rfl
  | cons p rest ih =>
    obtain ⟨k', v'⟩ := p
    by_cases h1 : k' = k
    · subst h1
      have h3 : ¬ (k' = j) := h
      simp [alRemove, alLookup, h3]
    · by_cases h4 : k' = j
      · have h5 : ¬ (j = k) := fun hc => h hc.symm
        simp [alRemove, alLookup, h1, h4, h5]
      · simp [alRemove, alLookup, h1, h4, ih]

theorem alLookup_alRemove {β : Type} (m : List (Nat × β)) (k j : Nat)
    (hn : (m.map Prod.fst).Nodup) :
    alLookup (alRemove m k) j = if k = j then none else alLookup m j := by
  by_cases h2 : k = j
  · subst h2
    rw [if_pos rfl, alLookup_eq_none_iff]
    intro hmem
    exact ((alRemove_keys m k hn k).mp hmem).2 rfl
  · rw [if_neg h2, alLookup_alRemove_ne m h2]

theorem alRemove_nodup {β : Type} (m : List (Nat × β)) (k : Nat)
    (hn : (m.map Prod.fst).Nodup) : ((alRemove m k).map Prod.fst).Nodup := by
  induction m with
  | nil => simp [alRemove]
  | cons p rest ih =>
    obtain ⟨k', v'⟩ := p
    rw [List.map_cons, List.nodup_cons] at hn
    by_cases h1 : k' = k
    · subst h1
      simpa [alRemove] using hn.2
    · simp only [alRemove, if_neg h1, List.map_cons]
      refine List.Nodup.cons ?_ (ih hn.2)
      intro hmem
      exact hn.1 ((alRemove_keys rest k hn.2 k').mp hmem).1

/-! ## `updateFirst` toolkit -/

theorem updateFirst_length (refs : List (Key × Nat)) (t : Key) (o n : Nat) :
    (updateFirst refs t o n).length = refs.length := by
  induction refs with
  | nil => rfl
  | cons r rest ih =>
    obtain ⟨k, i⟩ := r
    by_cases h : k = t ∧ i = o <;> simp [updateFirst, h, ih]

theorem updateFirst_of_not_mem {refs : List (Key × Nat)} {t : Key} {o : Nat} (n : Nat)
    (h : (t, o) ∉ refs) : updateFirst refs t o n = refs := by
  induction refs with
  | nil => rfl
  | cons r rest ih =>
    obtain ⟨k, i⟩ := r
    rw [List.mem_cons] at h
    push_neg at h
    have h2 : ¬ (k = t ∧ i = o) := by
      rintro ⟨rfl, rfl⟩
      exact h.1 rfl
    simp [updateFirst, h2, ih h.2]

theorem updateFirst_append_not_mem {l : List (Key × Nat)} {t : Key} {o : Nat}
    (r : List (Key × Nat)) (n : Nat) (h : (t, o) ∉ l) :
    updateFirst (l ++ r) t o n = l ++ updateFirst r t o n := by
  induction l with
  | nil => rfl
  | cons q rest ih =>
    obtain ⟨k, i⟩ := q
    rw [List.mem_cons] at h
    push_neg at h
    have h2 : ¬ (k = t ∧ i = o) := by
      rintro ⟨rfl, rfl⟩
      exact h.1 rfl
    simp [updateFirst, h2, ih h.2]

theorem updateFirst_spec {l r : List (Key × Nat)} {t : Key} {o : Nat} (n : Nat)
    (h : (t, o) ∉ l) :
    updateFirst (l ++ (t, o) :: r) t o n = l ++ (t, n) :: r := by
  rw [updateFirst_append_not_mem _ n h]
  simp [updateFirst]

/-! ## `swapRemove` toolkit -/

theorem swapRemove_def_of_lt {α : Type} {v : List α} {i : Nat} {last : α}
    (hl : v.getLast? = some last) (h : i < v.length) :
    swapRemove v i = some ((v.set i last).dropLast) := by
  simp [swapRemove, hl, h]

theorem getLast?_of_lt_length {α : Type} {v : List α} {i : Nat} (h : i < v.length) :
    ∃ last, v.getLast? = some last := by
  cases hv : v.getLast? with
  | some last => exact ⟨last, rfl⟩
  | none =>
    rw [List.getLast?_eq_none_iff] at hv
    subst hv
    simp at h

theorem swapRemove_isSome {α : Type} {v : List α} {i : Nat} (h : i < v.length) :
    ∃ w, swapRemove v i = some w := by
  obtain ⟨last, hl⟩ := getLast?_of_lt_length h
  exact ⟨_, swapRemove_def_of_lt hl h⟩

theorem swapRemove_length {α : Type} {v w : List α} {i : Nat}
    (h : swapRemove v i = some w) : w.length = v.length - 1 := by
  unfold swapRemove at h
  split at h
  · exact absurd h (by simp)
  · split at h
    · cases h
      simp
    · exact absurd h (by simp)

theorem swapRemove_getElem? {α : Type} {v w : List α} {i : Nat} {last : α}
    (hl : v.getLast? = some last) (hi : i < v.length)
    (h : swapRemove v i = some w) (j : Nat) (hj : j < v.length - 1) :
    w[j]? = if i = j then some last else v[j]? := by
  rw [swapRemove_def_of_lt hl hi] at h
  cases h
  rw [List.getElem?_dropLast, List.length_set, if_pos hj, List.getElem?_set, if_pos hi]

theorem set_getLast?_concat {α : Type} {v : List α} {i : Nat} {last : α}
    (hl : v.getLast? = some last) (hi : i < v.length) :
    v.set i last = (v.set i last).dropLast ++ [last] := by
  have hne : v.set i last ≠ [] := by
    intro hv
    rw [List.set_eq_nil_iff] at hv
    subst hv
    simp at hi
  have hlast : (v.set i last).getLast hne = last := by
    have h1 : (v.set i last).getLast? = some ((v.set i last).getLast hne) :=
      List.getLast?_eq_getLast _ hne
    rw [List.getLast?_eq_getElem?, List.length_set, List.getElem?_set] at h1
    by_cases hil : i = v.length - 1
    · rw [if_pos hil, if_pos hi] at h1
      exact (Option.some_inj.mp h1).symm
    · rw [if_neg hil, ← List.getLast?_eq_getElem?, hl] at h1
      exact (Option.some_inj.mp h1).symm
  conv_lhs => rw [← List.dropLast_append_getLast hne]
  rw [hlast]

theorem swapRemove_perm {α : Type} {v w : List α} {i : Nat}
    (hi : i < v.length) (h : swapRemove v i = some w) :
    w.Perm (v.eraseIdx i) := by
  obtain ⟨last, hl⟩ := getLast?_of_lt_length hi
  rw [swapRemove_def_of_lt hl hi] at h
  cases h
  have hconcat := set_getLast?_concat hl hi
  have hdecomp : v.set i last = v.take i ++ last :: v.drop (i + 1) := by
    rw [List.set_eq_take_append_cons_drop, if_pos hi]
  have hperm1 : ((v.set i last).dropLast ++ [last]).Perm (last :: v.eraseIdx i) := by
    rw [← hconcat, hdecomp, List.eraseIdx_eq_take_drop_succ]
    exact List.perm_middle
  have hperm2 : (last :: (v.set i last).dropLast).Perm (last :: v.eraseIdx i) := by
    refine List.Perm.trans ?_ hperm1
    exact @List.perm_append_comm _ [last] ((v.set i last).dropLast)
  exact hperm2.cons_inv

theorem perm_cons_eraseIdx {α : Type} [DecidableEq α] {v : List α} {i : Nat} {a : α}
    (h : v[i]? = some a) : v.Perm (a :: v.eraseIdx i) := by
  obtain ⟨hi, rfl⟩ := List.getElem?_eq_some.mp h
  have h1 : v.Perm (v[i] :: v.erase v[i]) := List.perm_cons_erase (List.getElem_mem hi)
  exact h1.trans (List.Perm.cons _ (List.erase_getElem hi))

/-! ## Claim C6 -/

/-- C6: `entity_add_component` on a live entity `e` resolves the column of
the key (or lazily creates it), appends the row `(e, v)` at row index
`oldc.length` (the column's length before the push), appends the reference
`(key, that index)` as the last element of `e`'s directory list, and
leaves every other column unchanged (in the existing-column case the old
rows are the strict prefix of the new column, so no pre-existing row of
any column changed). -/
theorem c6_add_component_appends (s : Scene) (key : Key) (e : Entity) (v : Val)
    (refs : List (Key × Nat)) (he : s.entity_components e = some refs) :
    ∃ s', s.entity_add_component key e v = some s' ∧
      (∀ oldc, s.components key = some oldc →
        s'.components key = some (oldc ++ [(e, v)]) ∧
        s'.entity_components e = some (refs ++ [(key, oldc.length)])) ∧
      (s.components key = none →
        s'.components key = some [(e, v)] ∧
        s'.entity_components e = some (refs ++ [(key, 0)])) ∧
      (∀ k', k' ≠ key → s'.components k' = s.components k') := by
  simp only [Scene.entity_components] at he
  cases hc : alLookup s.component_vecs key with
  | some cv =>
    refine ⟨_, by simp only [Scene.entity_add_component, he, hc]; rfl, ?_, ?_, ?_⟩
    · intro oldc ho
      simp only [Scene.components, hc] at ho
      cases ho
      constructor
      · simp only [Scene.components]
        rw [alLookup_alInsert, if_pos rfl]
      · simp only [Scene.entity_components]
        rw [alLookup_alInsert, if_pos rfl]
    · intro ho
      simp only [Scene.components, hc] at ho
      exact Option.noConfusion ho
    · intro k' hk
      simp only [Scene.components]
      rw [alLookup_alInsert, if_neg (fun h => hk h.symm)]
  | none =>
    refine ⟨_, by simp only [Scene.entity_add_component, he, hc]; rfl, ?_, ?_, ?_⟩
    · intro oldc ho
      simp only [Scene.components, hc] at ho
      exact Option.noConfusion ho
    · intro _
      constructor
      · simp only [Scene.components]
        rw [alLookup_alInsert, if_pos rfl]
      · simp only [Scene.entity_components]
        rw [alLookup_alInsert, if_pos rfl]
    · intro k' hk
      simp only [Scene.components]
      rw [alLookup_alInsert, if_neg (fun h => hk h.symm)]

/-- C6 witness: on the one-entity store, adding value 9 of component key 3
to entity 0 lazily creates column 3 holding exactly `[(0, 9)]` and makes
entity 0's directory list `[(3, 0)]`. -/
theorem c6_add_component_appends_witness :
    ∃ s', (Scene.mk [(0, [])] []).entity_add_component 3 0 9 = some s' ∧
      s'.components 3 = some [(0, 9)] ∧
      s'.entity_components 0 = some [(3, 0)] := by
  obtain ⟨s', h1, -, h3, -⟩ :=
    c6_add_component_appends (Scene.mk [(0, [])] []) 3 0 9 [] rfl
  have h5 := h3 rfl
  exact ⟨s', h1, h5.1, h5.2⟩

/-! ## Claim C9 -/

/-- C9 (frame property): `entity_add_component` on a live entity `e`
changes only `e`'s own reference list and the column of the added key:
every other entity's reference list, every column under a different key,
and every pre-existing row of the added key's column are unchanged. -/
theorem c9_add_component_frame (s : Scene) (key : Key) (e : Entity) (v : Val)
    (refs : List (Key × Nat)) (he : s.entity_components e = some refs) :
    ∃ s', s.entity_add_component key e v = some s' ∧
      (∀ e', e' ≠ e → s'.entity_components e' = s.entity_components e') ∧
      (∀ k', k' ≠ key → s'.components k' = s.components k') ∧
      (∀ oldc, s.components key = some oldc →
        ∃ newc, s'.components key = some newc ∧
          ∀ j, j < oldc.length → newc[j]? = oldc[j]?) := by
  simp only [Scene.entity_components] at he
  cases hc : alLookup s.component_vecs key with
  | some cv =>
    refine ⟨_, by simp only [Scene.entity_add_component, he, hc]; rfl, ?_, ?_, ?_⟩
    · intro e' he'
      simp only [Scene.entity_components]
      rw [alLookup_alInsert, if_neg (fun h => he' h.symm)]
    · intro k' hk
      simp only [Scene.components]
      rw [alLookup_alInsert, if_neg (fun h => hk h.symm)]
    · intro oldc ho
      simp only [Scene.components, hc] at ho
      cases ho
      refine ⟨cv ++ [(e, v)], ?_, ?_⟩
      · simp only [Scene.components]
        rw [alLookup_alInsert, if_pos rfl]
      · intro j hj
        rw [List.getElem?_append, if_pos hj]
  | none =>
    refine ⟨_, by simp only [Scene.entity_add_component, he, hc]; rfl, ?_, ?_, ?_⟩
    · intro e' he'
      simp only [Scene.entity_components]
      rw [alLookup_alInsert, if_neg (fun h => he' h.symm)]
    · intro k' hk
      simp only [Scene.components]
      rw [alLookup_alInsert, if_neg (fun h => hk h.symm)]
    · intro oldc ho
      simp only [Scene.components, hc] at ho
      exact Option.noConfusion ho

/-- C9 witness: on a two-entity store where entity 1 owns `(7, 0)` in
column 7, adding key 3 to entity 0 leaves entity 1's reference list,
column 7, and the pre-existing rows of column 3 unchanged. -/
theorem c9_add_component_frame_witness :
    ∃ s', (Scene.mk [(0, []), (1, [(7, 0)])] [(7, [(1, 5)])]).entity_add_component 3 0 9 =
        some s' ∧
      s'.entity_components 1 = some [(7, 0)] ∧
      s'.components 7 = some [(1, 5)] := by
  obtain ⟨s', h1, h2, h3, -⟩ :=
    c9_add_component_frame (Scene.mk [(0, []), (1, [(7, 0)])] [(7, [(1, 5)])]) 3 0 9 [] rfl
  refine ⟨s', h1, ?_, ?_⟩
  · rw [h2 1 (by decide)]
    rfl
  · rw [h3 7 (by decide)]
    rfl

/-! ## Column-persistence toolkit (for C7) -/

/-- Does an operation add a component of key `k`? -/
def Op.addsKey (k : Key) : Op → Bool
  | .addC k' _ _ => k' == k
  | _ => false

theorem alInsert_isSome_of_mem {β : Type} {m : List (Nat × β)} {t : Nat} {cv : β} (w : β)
    (hc : alLookup m t = some cv) (k : Nat) :
    (alLookup (alInsert m t w) k).isSome = (alLookup m k).isSome := by
  rw [alLookup_alInsert]
  by_cases ht : t = k
  · subst ht
    rw [if_pos rfl, hc]
    rfl
  · rw [if_neg ht]

theorem remove_last_keeps_columns {s : Scene} {e : Entity} {s' : Scene}
    (h : s.entity_remove_last_component e = some s') (k : Key) :
    (alLookup s'.component_vecs k).isSome = (alLookup s.component_vecs k).isSome := by
  unfold Scene.entity_remove_last_component at h
  split at h
  · exact Option.noConfusion h
  · split at h
    · cases h
      rfl
    · split at h
      · exact Option.noConfusion h
      · rename_i refs hrefs pr hpop cv hcv
        split at h
        · exact Option.noConfusion h
        · rename_i cv' hsw
          split at h
          · split at h
            · exact Option.noConfusion h
            · unfold Scene.update_entity at h
              split at h
              · exact Option.noConfusion h
              · cases h
                exact alInsert_isSome_of_mem cv' hcv k
          · cases h
            exact alInsert_isSome_of_mem cv' hcv k

theorem removeAll_keeps_columns {e : Entity} {fuel : Nat} {s s' : Scene}
    (h : s.removeAll e fuel = some s') (k : Key) :
    (alLookup s'.component_vecs k).isSome = (alLookup s.component_vecs k).isSome := by
  induction fuel generalizing s with
  | zero => exact Option.noConfusion h
  | succ n ih =>
    unfold Scene.removeAll at h
    split at h
    · exact Option.noConfusion h
    · split at h
      · cases h
        rfl
      · split at h
        · exact Option.noConfusion h
        · rename_i refs hrefs hne s₁ h₁
          rw [ih h]
          exact remove_last_keeps_columns h₁ k

theorem remove_entity_keeps_columns {e : Entity} {s s' : Scene}
    (h : s.remove_entity e = some s') (k : Key) :
    (alLookup s'.component_vecs k).isSome = (alLookup s.component_vecs k).isSome := by
  unfold Scene.remove_entity at h
  split at h
  · exact Option.noConfusion h
  · split at h
    · exact Option.noConfusion h
    · rename_i refs hrefs s₁ h₁
      cases h
      exact removeAll_keeps_columns h₁ k

theorem applyOp_columns {s : Scene} {op : Op} {s' : Scene}
    (h : s.applyOp op = some s') (k : Key) :
    (alLookup s'.component_vecs k).isSome =
      ((alLookup s.component_vecs k).isSome || Op.addsKey k op) := by
  cases op with
  | spawnE =>
    simp only [Scene.applyOp] at h
    cases h
    simp [Op.addsKey, Scene.spawn_entity]
  | removeE e =>
    simp only [Scene.applyOp] at h
    rw [remove_entity_keeps_columns h k]
    simp [Op.addsKey]
  | addC k' e v =>
    simp only [Scene.applyOp] at h
    unfold Scene.entity_add_component at h
    split at h
    · exact Option.noConfusion h
    · split at h <;> rename_i refs hrefs hcol <;> cases h
      · rename_i cv
        show (alLookup (alInsert s.component_vecs k' _) k).isSome = _
        rw [alLookup_alInsert]
        by_cases hk : k' = k
        · subst hk
          simp [Op.addsKey]
        · rw [if_neg hk]
          simp [Op.addsKey, hk]
      · show (alLookup (alInsert s.component_vecs k' _) k).isSome = _
        rw [alLookup_alInsert]
        by_cases hk : k' = k
        · subst hk
          simp [Op.addsKey]
        · rw [if_neg hk]
          simp [Op.addsKey, hk]

theorem exec_columns {ops : List Op} {s s' : Scene}
    (h : s.exec ops = some s') (k : Key) :
    (alLookup s'.component_vecs k).isSome =
      ((alLookup s.component_vecs k).isSome || ops.any (Op.addsKey k)) := by
  induction ops generalizing s with
  | nil =>
    cases h
    simp
  | cons op rest ih =>
    unfold Scene.exec at h
    split at h
    · exact Option.noConfusion h
    · rename_i s₁ h₁
      rw [ih h, applyOp_columns h₁ k, List.any_cons]
      cases (alLookup s.component_vecs k).isSome <;> cases Op.addsKey k op <;> simp

/-! ## Claim C7 -/

/-- C7: `components` (the typed column accessor) returns `none` exactly
when no add of that key occurs in the (successful) trace from the empty
store, and once a column exists it exists in every later state — columns
are never deleted, even when emptied by removals. -/
theorem c7_column_absence (k : Key) :
    (∀ (ops : List Op) (s' : Scene), Scene.empty.exec ops = some s' →
      ((s'.components k).isSome = ops.any (Op.addsKey k))) ∧
    (∀ (s : Scene) (ops : List Op) (s' : Scene),
      (s.components k).isSome = true → s.exec ops = some s' →
      (s'.components k).isSome = true) := by
  constructor
  · intro ops s' h
    have h1 := exec_columns h k
    simpa [Scene.components, Scene.empty, alLookup] using h1
  · intro s ops s' hsome h
    unfold Scene.components at hsome ⊢
    rw [exec_columns h k, hsome]
    rfl

/-- C7 witness: on the trace spawn; add key 2; despawn entity 0, the final
store still has column 2 (`components` is `some`, never reverting), and on
the add-free trace spawn; spawn it has none. -/
theorem c7_column_absence_witness :
    (∃ s', Scene.empty.exec [.spawnE, .addC 2 0 5, .removeE 0] = some s' ∧
      (s'.components 2).isSome = true ∧ s'.components 2 = some [] ∧
      (s'.components 3).isSome = false) ∧
    (∃ t', Scene.empty.exec [.spawnE, .spawnE] = some t' ∧
      (t'.components 2).isSome = false) := by
  constructor
  · refine ⟨Scene.mk [] [(2, [])], by decide, ?_, by decide, ?_⟩
    · exact (c7_column_absence 2).1 [.spawnE, .addC 2 0 5, .removeE 0]
        (Scene.mk [] [(2, [])]) (by decide)
    · have h3 := (c7_column_absence 3).1 [.spawnE, .addC 2 0 5, .removeE 0]
        (Scene.mk [] [(2, [])]) (by decide)
      simpa [Op.addsKey] using h3
  · refine ⟨Scene.mk [(0, []), (1, [])] [], by decide, ?_⟩
    exact (c7_column_absence 2).1 [.spawnE, .spawnE] (Scene.mk [(0, []), (1, [])] []) (by decide)

/-! ## Display determinism toolkit (for C8) -/

theorem alLookup_eq_of_perm {β : Type} {m₁ m₂ : List (Nat × β)}
    (h : m₁.Perm m₂) (hn : (m₁.map Prod.fst).Nodup) (k : Nat) :
    alLookup m₁ k = alLookup m₂ k := by
  induction h with
  | nil => rfl
  | cons p h ih =>
    obtain ⟨k', v'⟩ := p
    rw [List.map_cons, List.nodup_cons] at hn
    by_cases h1 : k' = k <;> simp [alLookup, h1, ih hn.2]
  | swap p q rest =>
    obtain ⟨k1, v1⟩ := p
    obtain ⟨k2, v2⟩ := q
    simp only [List.map_cons, List.nodup_cons, List.mem_cons] at hn
    have hk : k2 ≠ k1 := fun hc => hn.1 (Or.inl hc)
    by_cases h1 : k1 = k
    · have h2 : ¬ (k2 = k) := fun hc => hk (hc.trans h1.symm)
      simp [alLookup, h1, h2]
    · by_cases h2 : k2 = k <;> simp [alLookup, h1, h2]
  | trans h₁ h₂ ih₁ ih₂ =>
    rw [ih₁ hn, ih₂ ((h₁.map Prod.fst).nodup hn)]

theorem displayEntitySection_eq (names : Key → String) {s₁ s₂ : Scene}
    (hdir : s₁.entities.Perm s₂.entities) (hn : (s₁.entities.map Prod.fst).Nodup) :
    s₁.displayEntitySection names = s₂.displayEntitySection names := by
  unfold Scene.displayEntitySection
  have hsort : List.insertionSort (fun a b => a ≤ b) s₁.entities_list
      = List.insertionSort (fun a b => a ≤ b) s₂.entities_list := by
    exact List.eq_of_perm_of_sorted
      ((List.perm_insertionSort _ _).trans
        ((hdir.map Prod.fst).trans (List.perm_insertionSort _ _).symm))
      (List.sorted_insertionSort (fun a b => a ≤ b) s₁.entities_list)
      (List.sorted_insertionSort (fun a b => a ≤ b) s₂.entities_list)
  rw [hsort]
  have hmap : ∀ e : Entity, s₁.entity_components e = s₂.entity_components e := by
    intro e
    unfold Scene.entity_components
    exact alLookup_eq_of_perm hdir hn e
  have : (fun e : Entity =>
        "\t" ++ toString e ++ ": " ++
          toString (((s₁.entity_components e).getD []).map (fun r => (names r.1, r.2))) ++ "\n")
      = (fun e : Entity =>
        "\t" ++ toString e ++ ": " ++
          toString (((s₂.entity_components e).getD []).map (fun r => (names r.1, r.2))) ++ "\n") := by
    funext e
    rw [hmap e]
  rw [this]

/-! ## Claim C8 -/

/-- C8: refuted as stated.  Two stores with equal contents (directories
literally equal; column registries equal as finite maps) reached by the
two operation orders spawn, spawn, add(key 1 to 0), add(key 2 to 1) and
spawn, spawn, add(key 2 to 1), add(key 1 to 0) render differently: the
column registry is a `HashMap` whose iteration order is unspecified
(modelled here by its insertion order), so the per-component-type
sections come out as "T1, T2" in one rendering and "T2, T1" in the
other. -/
theorem c8_display_not_deterministic :
    ∃ sA sB : Scene,
      Scene.exec Scene.empty [.spawnE, .spawnE, .addC 1 0 10, .addC 2 1 20] = some sA ∧
      Scene.exec Scene.empty [.spawnE, .spawnE, .addC 2 1 20, .addC 1 0 10] = some sB ∧
      sA.contentsEqv sB ∧
      sA.display (fun k => "T" ++ toString k) ≠ sB.display (fun k => "T" ++ toString k) := by
  refine ⟨Scene.mk [(0, [(1, 0)]), (1, [(2, 0)])] [(1, [(0, 10)]), (2, [(1, 20)])],
    Scene.mk [(0, [(1, 0)]), (1, [(2, 0)])] [(2, [(1, 20)]), (1, [(0, 10)])],
    by decide, by decide, by decide, by decide⟩

/-- C8 (amended): the rendering is deterministic up to the column
registry's iteration order: the entity section is fully deterministic
(sorted by entity handle, and equal for any two stores whose directories
agree as finite maps), and two stores with equal directory contents whose
column registries additionally iterate in the same order render
identically. -/
theorem c8_display_deterministic_amended (names : Key → String) (s₁ s₂ : Scene)
    (hdir : s₁.entities.Perm s₂.entities)
    (hn : (s₁.entities.map Prod.fst).Nodup)
    (hreg : s₁.component_vecs = s₂.component_vecs) :
    s₁.displayEntitySection names = s₂.displayEntitySection names ∧
    s₁.display names = s₂.display names := by
  have hent := displayEntitySection_eq names hdir hn
  refine ⟨hent, ?_⟩
  unfold Scene.display
  rw [hent]
  unfold Scene.displayColumnSection
  rw [hreg]

/-- C8 witness: two stores whose directories are reorderings of one
another and whose registries iterate identically render the same string. -/
theorem c8_display_deterministic_amended_witness :
    (Scene.mk [(0, []), (1, [(2, 0)])] [(2, [(1, 5)])]).display (fun k => "T" ++ toString k) =
    (Scene.mk [(1, [(2, 0)]), (0, [])] [(2, [(1, 5)])]).display (fun k => "T" ++ toString k) :=
  (c8_display_deterministic_amended (fun k => "T" ++ toString k)
    (Scene.mk [(0, []), (1, [(2, 0)])] [(2, [(1, 5)])])
    (Scene.mk [(1, [(2, 0)]), (0, [])] [(2, [(1, 5)])])
    (by decide) (by decide) rfl).2

/-! ## Claim C3 -/

/-- C3: `entity_remove_last_component` (the spec's
`remove_last_component_of`) is a no-op when the entity's reference list is
empty; otherwise it pops the last reference `(k, i)` and swap-removes row
`i` from column `k`, and when the removed row was not the tail it rewrites
the `(k, old_len - 1)` entry of the entity that owned the old last row to
`(k, i)`.  The conjuncts cover, in order: the no-op case; the repoint case
where the moved row belongs to another entity `e₀`; the repoint case where
the moved row belongs to the popped entity itself (its own remaining entry
is rewritten); the tail case `i = old_len - 1`, where the column simply
loses its last row and nothing is repointed; and the spec's concrete
scenario: three entities each holding one component of key 5 in column
order `[e0, e1, e2]`; despawning `e1` leaves the column `[e0, e2]` with
`e2`'s reference rewritten from index 2 to index 1 and the full invariant
scan passing. -/
theorem c3_remove_last_component :
    (∀ (s : Scene) (e : Entity), s.entity_components e = some [] →
      s.entity_remove_last_component e = some s) ∧
    (∀ (s : Scene) (e : Entity) (refs : List (Key × Nat)) (k : Key) (i : Nat)
      (col : List (Entity × Val)) (e₀ : Entity) (l r : List (Key × Nat)),
      s.entity_components e = some (refs ++ [(k, i)]) →
      s.components k = some col →
      i + 1 < col.length →
      getEntity col (col.length - 1) = some e₀ →
      e₀ ≠ e →
      s.entity_components e₀ = some (l ++ (k, col.length - 1) :: r) →
      (k, col.length - 1) ∉ l →
      ∃ s' c', s.entity_remove_last_component e = some s' ∧
        s'.components k = some c' ∧
        c'.length = col.length - 1 ∧
        (∀ j, j < col.length - 1 → c'[j]? = if i = j then (col[col.length - 1]?) else (col[j]?)) ∧
        (∀ k', k' ≠ k → s'.components k' = s.components k') ∧
        s'.entity_components e = some refs ∧
        s'.entity_components e₀ = some (l ++ (k, i) :: r)) ∧
    (∀ (s : Scene) (e : Entity) (refs l r : List (Key × Nat)) (k : Key) (i : Nat)
      (col : List (Entity × Val)),
      s.entity_components e = some (refs ++ [(k, i)]) →
      s.components k = some col →
      i + 1 < col.length →
      getEntity col (col.length - 1) = some e →
      refs = l ++ (k, col.length - 1) :: r →
      (k, col.length - 1) ∉ l →
      ∃ s' c', s.entity_remove_last_component e = some s' ∧
        s'.components k = some c' ∧
        c'.length = col.length - 1 ∧
        (∀ j, j < col.length - 1 → c'[j]? = if i = j then (col[col.length - 1]?) else (col[j]?)) ∧
        (∀ k', k' ≠ k → s'.components k' = s.components k') ∧
        s'.entity_components e = some (l ++ (k, i) :: r)) ∧
    (∀ (s : Scene) (e : Entity) (refs : List (Key × Nat)) (k : Key) (i : Nat)
      (col : List (Entity × Val)),
      s.entity_components e = some (refs ++ [(k, i)]) →
      s.components k = some col →
      i + 1 = col.length →
      ∃ s' c', s.entity_remove_last_component e = some s' ∧
        s'.components k = some c' ∧
        c'.length = col.length - 1 ∧
        (∀ j, j < col.length - 1 → c'[j]? = (col[j]?)) ∧
        (∀ k', k' ≠ k → s'.components k' = s.components k') ∧
        s'.entity_components e = some refs ∧
        (∀ e', e' ≠ e → s'.entity_components e' = s.entity_components e')) ∧
    (Scene.exec Scene.empty
        [.spawnE, .spawnE, .spawnE, .addC 5 0 1, .addC 5 1 2, .addC 5 2 3, .removeE 1] =
      some (Scene.mk [(0, [(5, 0)]), (2, [(5, 1)])] [(5, [(0, 1), (2, 3)])]) ∧
      (Scene.mk [(0, [(5, 0)]), (2, [(5, 1)])] [(5, [(0, 1), (2, 3)])]).Inv) := by
  refine ⟨?_, ?_, ?_, ?_, by decide, by decide⟩
  · intro s e he
    simp only [Scene.entity_components] at he
    simp only [Scene.entity_remove_last_component, he, List.getLast?]
  · intro s e refs k i col e₀ l r he hc hi1 hlast hne he₀ hnotl
    simp only [Scene.entity_components] at he he₀
    simp only [Scene.components] at hc
    have hi : i < col.length := Nat.lt_of_succ_lt hi1
    obtain ⟨last, hl⟩ := getLast?_of_lt_length hi
    have hlast_elem : col[col.length - 1]? = some last := by
      rw [← List.getLast?_eq_getElem?]
      exact hl
    have hfst : last.1 = e₀ := by
      unfold getEntity at hlast
      rw [hlast_elem] at hlast
      exact Option.some_inj.mp hlast
    have hsw : swapRemove col i = some ((col.set i last).dropLast) := swapRemove_def_of_lt hl hi
    have hlen : ((col.set i last).dropLast).length = col.length - 1 := by
      rw [List.length_dropLast, List.length_set]
    have hilt : i < ((col.set i last).dropLast).length := by
      rw [hlen]
      exact Nat.lt_sub_of_add_lt (by omega)
    have hget : getEntity ((col.set i last).dropLast) i = some e₀ := by
      unfold getEntity
      have h1 := swapRemove_getElem? hl hi hsw i (by omega)
      rw [if_pos rfl] at h1
      rw [h1]
      simp [hfst]
    have he₀' : alLookup (alInsert s.entities e refs) e₀ = some (l ++ (k, col.length - 1) :: r) := by
      rw [alLookup_alInsert, if_neg (fun h => hne h.symm)]
      exact he₀
    have hupd : updateFirst (l ++ (k, col.length - 1) :: r) k
        (((col.set i last).dropLast).length) i = l ++ (k, i) :: r := by
      rw [hlen]
      exact updateFirst_spec i hnotl
    refine ⟨⟨alInsert (alInsert s.entities e refs) e₀ (l ++ (k, i) :: r),
        alInsert s.component_vecs k ((col.set i last).dropLast)⟩,
      (col.set i last).dropLast, ?_, ?_, hlen, ?_, ?_, ?_, ?_⟩
    · simp only [Scene.entity_remove_last_component, he, List.getLast?_concat,
        List.dropLast_concat, hc, hsw, hilt, if_pos, hget, Scene.update_entity, he₀', hupd]
    · simp only [Scene.components]
      rw [alLookup_alInsert, if_pos rfl]
    · intro j hj
      rw [swapRemove_getElem? hl hi hsw j hj, hlast_elem]
    · intro k' hk
      simp only [Scene.components]
      rw [alLookup_alInsert, if_neg (fun h => hk h.symm)]
    · simp only [Scene.entity_components]
      rw [alLookup_alInsert, if_neg hne, alLookup_alInsert, if_pos rfl]
    · simp only [Scene.entity_components]
      rw [alLookup_alInsert, if_pos rfl]
  · intro s e refs l r k i col he hc hi1 hlast hdecomp hnotl
    simp only [Scene.entity_components] at he
    simp only [Scene.components] at hc
    have hi : i < col.length := Nat.lt_of_succ_lt hi1
    obtain ⟨last, hl⟩ := getLast?_of_lt_length hi
    have hlast_elem : col[col.length - 1]? = some last := by
      rw [← List.getLast?_eq_getElem?]
      exact hl
    have hfst : last.1 = e := by
      unfold getEntity at hlast
      rw [hlast_elem] at hlast
      exact Option.some_inj.mp hlast
    have hsw : swapRemove col i = some ((col.set i last).dropLast) := swapRemove_def_of_lt hl hi
    have hlen : ((col.set i last).dropLast).length = col.length - 1 := by
      rw [List.length_dropLast, List.length_set]
    have hilt : i < ((col.set i last).dropLast).length := by
      rw [hlen]
      exact Nat.lt_sub_of_add_lt (by omega)
    have hget : getEntity ((col.set i last).dropLast) i = some e := by
      unfold getEntity
      have h1 := swapRemove_getElem? hl hi hsw i (by omega)
      rw [if_pos rfl] at h1
      rw [h1]
      simp [hfst]
    have he' : alLookup (alInsert s.entities e refs) e =
        some (l ++ (k, col.length - 1) :: r) := by
      rw [alLookup_alInsert, if_pos rfl, hdecomp]
    have hupd : updateFirst (l ++ (k, col.length - 1) :: r) k
        (((col.set i last).dropLast).length) i = l ++ (k, i) :: r := by
      rw [hlen]
      exact updateFirst_spec i hnotl
    refine ⟨⟨alInsert (alInsert s.entities e refs) e (l ++ (k, i) :: r),
        alInsert s.component_vecs k ((col.set i last).dropLast)⟩,
      (col.set i last).dropLast, ?_, ?_, hlen, ?_, ?_, ?_⟩
    · simp only [Scene.entity_remove_last_component, he, List.getLast?_concat,
        List.dropLast_concat, hc, hsw, hilt, if_pos, hget, Scene.update_entity, he', hupd]
    · simp only [Scene.components]
      rw [alLookup_alInsert, if_pos rfl]
    · intro j hj
      rw [swapRemove_getElem? hl hi hsw j hj, hlast_elem]
    · intro k' hk
      simp only [Scene.components]
      rw [alLookup_alInsert, if_neg (fun h => hk h.symm)]
    · simp only [Scene.entity_components]
      rw [alLookup_alInsert, if_pos rfl]
  · intro s e refs k i col he hc hieq
    simp only [Scene.entity_components] at he
    simp only [Scene.components] at hc
    have hi : i < col.length := by omega
    obtain ⟨last, hl⟩ := getLast?_of_lt_length hi
    have hsw : swapRemove col i = some ((col.set i last).dropLast) := swapRemove_def_of_lt hl hi
    have hlen : ((col.set i last).dropLast).length = col.length - 1 := by
      rw [List.length_dropLast, List.length_set]
    have hnotlt : ¬ i < ((col.set i last).dropLast).length := by
      rw [hlen]
      omega
    refine ⟨⟨alInsert s.entities e refs,
        alInsert s.component_vecs k ((col.set i last).dropLast)⟩,
      (col.set i last).dropLast, ?_, ?_, hlen, ?_, ?_, ?_, ?_⟩
    · simp only [Scene.entity_remove_last_component, he, List.getLast?_concat,
        List.dropLast_concat, hc, hsw]
      rw [if_neg hnotlt]
    · simp only [Scene.components]
      rw [alLookup_alInsert, if_pos rfl]
    · intro j hj
      rw [swapRemove_getElem? hl hi hsw j hj, if_neg (by omega)]
    · intro k' hk
      simp only [Scene.components]
      rw [alLookup_alInsert, if_neg (fun h => hk h.symm)]
    · simp only [Scene.entity_components]
      rw [alLookup_alInsert, if_pos rfl]
    · intro e' he'
      simp only [Scene.entity_components]
      rw [alLookup_alInsert, if_neg (fun h => he' h.symm)]

/-- C3 witness: the three repoint/tail behaviours at concrete stores.
First, the spec scenario: popping `(5, 1)` from entity 1 moves the last
row `(2, 3)` into slot 1 and rewrites entity 2's entry `(5, 2)` to
`(5, 1)`.  Second, a self-repoint: entity 0 owns rows 1 and 2 of column
7; popping `(7, 1)` moves entity 0's own last row into slot 1 and
rewrites entity 0's remaining entry `(7, 2)` to `(7, 1)`.  Third, a tail
removal: popping `(7, 1)` when row 1 is the last row just drops it. -/
theorem c3_remove_last_component_witness :
    (∃ s' c',
      (Scene.mk [(0, [(5, 0)]), (1, [(5, 1)]), (2, [(5, 2)])]
        [(5, [(0, 1), (1, 2), (2, 3)])]).entity_remove_last_component 1 = some s' ∧
      s'.components 5 = some c' ∧
      c'.length = 2 ∧
      s'.entity_components 1 = some [] ∧
      s'.entity_components 2 = some [(5, 1)]) ∧
    (∃ s' c',
      (Scene.mk [(0, [(7, 2), (7, 1)]), (1, [(7, 0)])]
        [(7, [(1, 10), (0, 20), (0, 30)])]).entity_remove_last_component 0 = some s' ∧
      s'.components 7 = some c' ∧
      c'.length = 2 ∧
      s'.entity_components 0 = some [(7, 1)]) ∧
    (∃ s' c',
      (Scene.mk [(0, [(7, 0), (7, 1)])]
        [(7, [(0, 5), (0, 6)])]).entity_remove_last_component 0 = some s' ∧
      s'.components 7 = some c' ∧
      c'.length = 1 ∧
      s'.entity_components 0 = some [(7, 0)]) := by
  refine ⟨?_, ?_, ?_⟩
  · obtain ⟨s', c', h1, h2, h3, -, -, h6, h7⟩ :=
      c3_remove_last_component.2.1
        (Scene.mk [(0, [(5, 0)]), (1, [(5, 1)]), (2, [(5, 2)])] [(5, [(0, 1), (1, 2), (2, 3)])])
        1 [] 5 1 [(0, 1), (1, 2), (2, 3)] 2 [] []
        (by decide) (by decide) (by decide) (by decide) (by decide) (by decide) (by decide)
    exact ⟨s', c', h1, h2, h3, h6, h7⟩
  · obtain ⟨s', c', h1, h2, h3, -, -, h6⟩ :=
      c3_remove_last_component.2.2.1
        (Scene.mk [(0, [(7, 2), (7, 1)]), (1, [(7, 0)])] [(7, [(1, 10), (0, 20), (0, 30)])])
        0 [(7, 2)] [] [] 7 1 [(1, 10), (0, 20), (0, 30)]
        (by decide) (by decide) (by decide) (by decide) (by decide) (by decide)
    exact ⟨s', c', h1, h2, h3, h6⟩
  · obtain ⟨s', c', h1, h2, h3, -, -, h6, -⟩ :=
      c3_remove_last_component.2.2.2.1
        (Scene.mk [(0, [(7, 0), (7, 1)])] [(7, [(0, 5), (0, 6)])])
        0 [(7, 0)] 7 1 [(0, 5), (0, 6)]
        (by decide) (by decide) (by decide)
    exact ⟨s', c', h1, h2, h3, h6⟩

/-! ## Lookup-based form of the invariants, and counting helpers (for C4, C10) -/

/-- The cross-reference invariants phrased through `alLookup`, the form in
which they are consumed and re-established by the removal proofs. -/
def Scene.LInv (s : Scene) : Prop :=
  (∀ e refs, alLookup s.entities e = some refs → ∀ k i, (k, i) ∈ refs →
    ∃ c v, alLookup s.component_vecs k = some c ∧ getElem? c i = some (e, v)) ∧
  (∀ k c, alLookup s.component_vecs k = some c → ∀ i e v, getElem? c i = some (e, v) →
    ∃ refs, alLookup s.entities e = some refs ∧ List.count (k, i) refs = 1)

theorem LInv_of_Inv {s : Scene} (h1 : s.Inv1) (h2 : s.Inv2) : s.LInv := by
  constructor
  · intro e refs he k i hr
    have hp := h1 (e, refs) (alLookup_mem he) (k, i) hr
    cases hcv : alLookup s.component_vecs k with
    | none =>
      rw [hcv] at hp
      exact Option.noConfusion hp
    | some c =>
      rw [hcv] at hp
      simp only [Option.bind_some, getEntity] at hp
      obtain ⟨⟨e', v⟩, hgv, hfst⟩ := Option.map_eq_some'.mp hp
      cases hfst
      exact ⟨c, v, rfl, hgv⟩
  · intro k c hc i e v hrow
    have henum : (i, (e, v)) ∈ c.enum := by
      rw [List.mk_mem_enum_iff_getElem?]
      exact hrow
    have hq := h2 (k, c) (alLookup_mem hc) (i, (e, v)) henum
    cases hre : alLookup s.entities e with
    | none =>
      rw [hre] at hq
      exact Option.noConfusion hq
    | some refs =>
      rw [hre] at hq
      simp only [Option.map_some] at hq
      exact ⟨refs, rfl, Option.some_inj.mp hq⟩

theorem Inv_parts_of_LInv {s : Scene} (hWF : s.WF) (hL : s.LInv) : s.Inv1 ∧ s.Inv2 := by
  constructor
  · intro p hp r hr
    have hlk : alLookup s.entities p.1 = some p.2 := alLookup_of_mem hWF.1 hp
    obtain ⟨c, v, hc, hrow⟩ := hL.1 p.1 p.2 hlk r.1 r.2 (by
      cases r
      exact hr)
    rw [hc]
    simp [getEntity, hrow]
  · intro q hq p hpe
    have hlk : alLookup s.component_vecs q.1 = some q.2 := alLookup_of_mem hWF.2 hq
    have hrow : getElem? q.2 p.1 = some p.2 := by
      rw [← List.mk_mem_enum_iff_getElem?]
      cases p
      exact hpe
    obtain ⟨refs, hre, hcnt⟩ := hL.2 q.1 q.2 hlk p.1 p.2.1 p.2.2 (by
      cases hp2 : p.2
      rw [hp2] at hrow
      exact hrow)
    rw [hre]
    exact congrArg some hcnt

theorem count_append_cons (x y : Key × Nat) (l r : List (Key × Nat)) :
    List.count x (l ++ y :: r) =
      List.count x l + List.count x r + (if y = x then 1 else 0) := by
  rw [List.count_append, List.count_cons]
  by_cases h : y = x
  · subst h
    simp only [if_pos rfl, beq_self_eq_true, if_true]
    omega
  · have hb : (y == x) = false := beq_eq_false_iff_ne.mpr h
    rw [if_neg h, hb]
    simp

theorem count_one_decomp {x : Key × Nat} {X : List (Key × Nat)}
    (h : List.count x X = 1) :
    ∃ l r, X = l ++ x :: r ∧ List.count x l = 0 ∧ List.count x r = 0 ∧ x ∉ l ∧ x ∉ r := by
  have hmem : x ∈ X := List.count_pos_iff.mp (by omega)
  obtain ⟨l, r, rfl⟩ := List.append_of_mem hmem
  have hcnt := count_append_cons x x l r
  rw [if_pos rfl, h] at hcnt
  have hl : List.count x l = 0 := by omega
  have hr : List.count x r = 0 := by omega
  exact ⟨l, r, rfl, hl, hr,
    fun hm => by rw [List.count_eq_zero] at hl; exact hl hm,
    fun hm => by rw [List.count_eq_zero] at hr; exact hr hm⟩

/-- Single-step preservation: under the invariants, removing the last
component reference of a live entity succeeds (no unwrap fails), keeps the
invariants, shortens the entity's list by one, removes exactly the
referenced row (up to the swap-compaction permutation) from its column and
leaves every other column untouched. -/
theorem remove_last_step {s : Scene} {e : Entity} {refs : List (Key × Nat)} {k : Key} {i : Nat}
    (hWF : s.WF) (hL : s.LInv)
    (he : alLookup s.entities e = some (refs ++ [(k, i)])) :
    ∃ s' c v, s.entity_remove_last_component e = some s' ∧
      s'.WF ∧ s'.LInv ∧
      alLookup s.component_vecs k = some c ∧ getElem? c i = some (e, v) ∧
      (∃ refs', alLookup s'.entities e = some refs' ∧ refs'.length = refs.length) ∧
      s'.entities.map Prod.fst = s.entities.map Prod.fst ∧
      (∃ c', alLookup s'.component_vecs k = some c' ∧ c'.Perm (c.eraseIdx i)) ∧
      (∀ k', k' ≠ k → alLookup s'.component_vecs k' = alLookup s.component_vecs k') := by
  obtain ⟨c, v, hc, hrow⟩ := hL.1 e (refs ++ [(k, i)]) he k i (by simp)
  obtain ⟨hi, -⟩ := List.getElem?_eq_some.mp hrow
  obtain ⟨last, hl⟩ := getLast?_of_lt_length hi
  have hlast_elem : getElem? c (c.length - 1) = some last := by
    rw [← List.getLast?_eq_getElem?]
    exact hl
  have hsw : swapRemove c i = some ((c.set i last).dropLast) := swapRemove_def_of_lt hl hi
  have hlen : ((c.set i last).dropLast).length = c.length - 1 := by
    rw [List.length_dropLast, List.length_set]
  have hperm : ((c.set i last).dropLast).Perm (c.eraseIdx i) := swapRemove_perm hi hsw
  have hcv'get : ∀ j, j < c.length - 1 →
      getElem? ((c.set i last).dropLast) j = if i = j then some last else getElem? c j :=
    fun j hj => swapRemove_getElem? hl hi hsw j hj
  obtain ⟨refsE, hreE, hcntE0⟩ := hL.2 k c hc i e v hrow
  have hrefsE : refsE = refs ++ [(k, i)] := by
    rw [he] at hreE
    exact (Option.some_inj.mp hreE).symm
  rw [hrefsE] at hcntE0
  have hcntE : List.count (k, i) refs = 0 := by
    have h1 := count_append_cons (k, i) (k, i) refs []
    rw [if_pos rfl] at h1
    simp only [List.count_nil] at h1
    omega
  have hnotinE : (k, i) ∉ refs := List.count_eq_zero.mp hcntE
  have heme : e ∈ s.entities.map Prod.fst := by
    rw [← alLookup_isSome_iff, he]
    rfl
  have hemk : k ∈ s.component_vecs.map Prod.fst := by
    rw [← alLookup_isSome_iff, hc]
    rfl
  by_cases hiL : i < c.length - 1
  · -- repoint: the old last row, owned by `last.1`, moves to slot `i`
    have hilt : i < ((c.set i last).dropLast).length := by
      rw [hlen]
      exact hiL
    have hget : getEntity ((c.set i last).dropLast) i = some last.1 := by
      unfold getEntity
      rw [hcv'get i hiL, if_pos rfl]
      rfl
    obtain ⟨refs₀, h₀, hcnt₀⟩ := hL.2 k c hc (c.length - 1) last.1 last.2
      (by rw [Prod.mk.eta]; exact hlast_elem)
    have hLne : (k, c.length - 1) ≠ (k, i) := by
      intro hx
      have h2 := congrArg Prod.snd hx
      simp only at h2
      omega
    obtain ⟨X, hXl, hXof, hXki⟩ :
        ∃ X, alLookup (alInsert s.entities e refs) last.1 = some X ∧
          (∀ y, y ≠ (k, i) → List.count y X = List.count y refs₀) ∧
          List.count (k, i) X = 0 := by
      by_cases hEe : last.1 = e
      · refine ⟨refs, ?_, ?_, hcntE⟩
        · rw [hEe, alLookup_alInsert, if_pos rfl]
        · intro y hy
          have hr₀ : refs₀ = refs ++ [(k, i)] := by
            rw [hEe, he] at h₀
            exact (Option.some_inj.mp h₀).symm
          rw [hr₀]
          have h2 := count_append_cons y (k, i) refs []
          simp only [List.count_nil] at h2
          rw [if_neg (fun hx => hy hx.symm)] at h2
          omega
      · refine ⟨refs₀, ?_, fun y _ => rfl, ?_⟩
        · rw [alLookup_alInsert, if_neg (fun hx => hEe hx.symm)]
          exact h₀
        · rw [List.count_eq_zero]
          intro hmem
          obtain ⟨c₂, v₂, hc₂, hrow₂⟩ := hL.1 last.1 refs₀ h₀ k i hmem
          rw [hc] at hc₂
          cases Option.some_inj.mp hc₂
          rw [hrow] at hrow₂
          exact hEe (congrArg Prod.fst (Option.some_inj.mp hrow₂)).symm
    have hcntX_L : List.count (k, c.length - 1) X = 1 := by
      rw [hXof _ hLne]
      exact hcnt₀
    obtain ⟨l, r, hXdecomp, hcl, hcr, hnl, hnr⟩ := count_one_decomp hcntX_L
    have hupd : updateFirst X k ((c.set i last).dropLast).length i = l ++ (k, i) :: r := by
      rw [hlen, hXdecomp]
      exact updateFirst_spec i hnl
    have hcX' : ∀ y, List.count y (l ++ (k, i) :: r) =
        List.count y l + List.count y r + (if (k, i) = y then 1 else 0) :=
      fun y => count_append_cons y (k, i) l r
    have hcX : ∀ y, List.count y X =
        List.count y l + List.count y r + (if (k, c.length - 1) = y then 1 else 0) := by
      intro y
      rw [hXdecomp]
      exact count_append_cons y (k, c.length - 1) l r
    have hkeys1 : (alInsert s.entities e refs).map Prod.fst = s.entities.map Prod.fst :=
      alInsert_keys_of_mem refs heme
    have heml : last.1 ∈ (alInsert s.entities e refs).map Prod.fst := by
      rw [hkeys1, ← alLookup_isSome_iff, h₀]
      rfl
    refine ⟨⟨alInsert (alInsert s.entities e refs) last.1 (l ++ (k, i) :: r),
        alInsert s.component_vecs k ((c.set i last).dropLast)⟩,
      c, v, ?_, ?_, ⟨?_, ?_⟩, hc, hrow, ?_, ?_, ?_, ?_⟩
    · simp only [Scene.entity_remove_last_component, he, List.getLast?_concat,
        List.dropLast_concat, hc, hsw, hilt, if_pos, hget, Scene.update_entity, hXl, hupd]
    · exact ⟨alInsert_nodup _ _ (alInsert_nodup e refs hWF.1), alInsert_nodup k _ hWF.2⟩
    · -- LInv part 1
      intro e₁ refs₁ h₁ k₁ i₁ hmem₁
      rw [alLookup_alInsert] at h₁
      by_cases hA : last.1 = e₁
      · rw [if_pos hA] at h₁
        cases Option.some_inj.mp h₁
        have hsplit : (k₁, i₁) = (k, i) ∨
            ((k₁, i₁) ∈ X ∧ (k₁, i₁) ≠ (k, c.length - 1)) := by
          rcases List.mem_append.mp hmem₁ with hml | hmc
          · exact Or.inr ⟨by rw [hXdecomp]; exact List.mem_append_left _ hml,
              fun hx => hnl (hx ▸ hml)⟩
          · rcases List.mem_cons.mp hmc with hx | hmr
            · exact Or.inl hx
            · exact Or.inr ⟨by
                rw [hXdecomp]
                exact List.mem_append_right _ (List.mem_cons_of_mem _ hmr),
                fun hx => hnr (hx ▸ hmr)⟩
        rcases hsplit with hx | ⟨hmX, hneL⟩
        · injection hx with hxk hxi
          refine ⟨(c.set i last).dropLast, last.2, ?_, ?_⟩
          · rw [alLookup_alInsert, if_pos hxk.symm]
          · rw [hxi, hcv'get i hiL, if_pos rfl, ← hA, Prod.mk.eta]
        · have hcnt_pos : 0 < List.count (k₁, i₁) X := List.count_pos_iff.mpr hmX
          have hney : (k₁, i₁) ≠ (k, i) := by
            intro hx
            rw [hx, hXki] at hcnt_pos
            omega
          have hmem₀ : (k₁, i₁) ∈ refs₀ := by
            rw [← List.count_pos_iff, ← hXof _ hney]
            exact hcnt_pos
          obtain ⟨c₁, v₁, hc₁, hrow₁⟩ := hL.1 last.1 refs₀ h₀ k₁ i₁ hmem₀
          rw [hA] at hrow₁
          by_cases hk₁ : k = k₁
          · subst hk₁
            have hceq : c₁ = c := by
              rw [hc] at hc₁
              exact (Option.some_inj.mp hc₁).symm
            rw [hceq] at hrow₁
            obtain ⟨hi₁, -⟩ := List.getElem?_eq_some.mp hrow₁
            have hii : i₁ ≠ i := fun hx => hney (by rw [hx])
            have hiL₁ : i₁ ≠ c.length - 1 := fun hx => hneL (by rw [hx])
            have hi₁L : i₁ < c.length - 1 := by omega
            refine ⟨(c.set i last).dropLast, v₁, ?_, ?_⟩
            · rw [alLookup_alInsert, if_pos rfl]
            · rw [hcv'get i₁ hi₁L, if_neg (fun hx => hii hx.symm)]
              exact hrow₁
          · refine ⟨c₁, v₁, ?_, hrow₁⟩
            rw [alLookup_alInsert, if_neg hk₁]
            exact hc₁
      · rw [if_neg hA] at h₁
        rw [alLookup_alInsert] at h₁
        by_cases hB : e = e₁
        · rw [if_pos hB] at h₁
          cases Option.some_inj.mp h₁
          have hmemold : (k₁, i₁) ∈ refs ++ [(k, i)] := List.mem_append_left _ hmem₁
          obtain ⟨c₁, v₁, hc₁, hrow₁⟩ := hL.1 e (refs ++ [(k, i)]) he k₁ i₁ hmemold
          rw [hB] at hrow₁
          have hne_ki : (k₁, i₁) ≠ (k, i) := fun hx => hnotinE (hx ▸ hmem₁)
          by_cases hk₁ : k = k₁
          · subst hk₁
            have hceq : c₁ = c := by
              rw [hc] at hc₁
              exact (Option.some_inj.mp hc₁).symm
            rw [hceq] at hrow₁
            obtain ⟨hi₁, -⟩ := List.getElem?_eq_some.mp hrow₁
            have hii : i₁ ≠ i := fun hx => hne_ki (by rw [hx])
            have hiL₁ : i₁ ≠ c.length - 1 := by
              intro hx
              rw [hx, hlast_elem] at hrow₁
              have h2 := congrArg Prod.fst (Option.some_inj.mp hrow₁)
              exact hA (h2.symm ▸ (hB ▸ rfl : (e₁ : Entity) = e₁))
            have hi₁L : i₁ < c.length - 1 := by omega
            refine ⟨(c.set i last).dropLast, v₁, ?_, ?_⟩
            · rw [alLookup_alInsert, if_pos rfl]
            · rw [hcv'get i₁ hi₁L, if_neg (fun hx => hii hx.symm)]
              exact hrow₁
          · refine ⟨c₁, v₁, ?_, hrow₁⟩
            rw [alLookup_alInsert, if_neg hk₁]
            exact hc₁
        · rw [if_neg hB] at h₁
          obtain ⟨c₁, v₁, hc₁, hrow₁⟩ := hL.1 e₁ refs₁ h₁ k₁ i₁ hmem₁
          by_cases hk₁ : k = k₁
          · subst hk₁
            have hceq : c₁ = c := by
              rw [hc] at hc₁
              exact (Option.some_inj.mp hc₁).symm
            rw [hceq] at hrow₁
            obtain ⟨hi₁, -⟩ := List.getElem?_eq_some.mp hrow₁
            have hii : i₁ ≠ i := by
              intro hx
              rw [hx, hrow] at hrow₁
              exact hB (congrArg Prod.fst (Option.some_inj.mp hrow₁))
            have hiL₁ : i₁ ≠ c.length - 1 := by
              intro hx
              rw [hx, hlast_elem] at hrow₁
              exact hA (congrArg Prod.fst (Option.some_inj.mp hrow₁))
            have hi₁L : i₁ < c.length - 1 := by omega
            refine ⟨(c.set i last).dropLast, v₁, ?_, ?_⟩
            · rw [alLookup_alInsert, if_pos rfl]
            · rw [hcv'get i₁ hi₁L, if_neg (fun hx => hii hx.symm)]
              exact hrow₁
          · refine ⟨c₁, v₁, ?_, hrow₁⟩
            rw [alLookup_alInsert, if_neg hk₁]
            exact hc₁
    · -- LInv part 2
      intro k₁ c₁ hc₁ i₁ e₁ v₁ hrow₁
      rw [alLookup_alInsert] at hc₁
      by_cases hk₁ : k = k₁
      · subst hk₁
        rw [if_pos rfl] at hc₁
        cases Option.some_inj.mp hc₁
        obtain ⟨hi₁, -⟩ := List.getElem?_eq_some.mp hrow₁
        rw [hlen] at hi₁
        by_cases hii : i = i₁
        · subst hii
          rw [hcv'get i hiL, if_pos rfl] at hrow₁
          have hlast_ev₁ : last = (e₁, v₁) := Option.some_inj.mp hrow₁
          have hAe : last.1 = e₁ := by rw [hlast_ev₁]
          refine ⟨l ++ (k, i) :: r, ?_, ?_⟩
          · rw [alLookup_alInsert, if_pos hAe]
          · have h2 := hcX' (k, i)
            have h3 := hcX (k, i)
            rw [if_pos rfl] at h2
            rw [if_neg hLne] at h3
            omega
        · rw [hcv'get i₁ hi₁, if_neg hii] at hrow₁
          obtain ⟨R, hR, hcntR⟩ := hL.2 k c hc i₁ e₁ v₁ hrow₁
          have hineq : (k, i₁) ≠ (k, i) := by
            intro hx
            exact hii (congrArg Prod.snd hx).symm
          have hiLne : (k, c.length - 1) ≠ (k, i₁) := by
            intro hx
            have h2 := congrArg Prod.snd hx
            simp only at h2
            omega
          by_cases hA : last.1 = e₁
          · refine ⟨l ++ (k, i) :: r, ?_, ?_⟩
            · rw [alLookup_alInsert, if_pos hA]
            · have hReq : R = refs₀ := by
                rw [hA] at h₀
                rw [h₀] at hR
                exact (Option.some_inj.mp hR).symm
              have h2 := hcX' (k, i₁)
              have h3 := hcX (k, i₁)
              rw [if_neg (fun hx => hineq hx.symm)] at h2
              rw [if_neg hiLne] at h3
              have h4 := hXof (k, i₁) hineq
              rw [hReq] at hcntR
              omega
          · by_cases hB : e = e₁
            · refine ⟨refs, ?_, ?_⟩
              · rw [alLookup_alInsert, if_neg hA, alLookup_alInsert, if_pos hB]
              · have hReq : R = refs ++ [(k, i)] := by
                  rw [hB] at he
                  rw [he] at hR
                  exact (Option.some_inj.mp hR).symm
                rw [hReq] at hcntR
                have h2 := count_append_cons (k, i₁) (k, i) refs []
                simp only [List.count_nil] at h2
                rw [if_neg (fun hx => hineq hx.symm)] at h2
                omega
            · refine ⟨R, ?_, hcntR⟩
              rw [alLookup_alInsert, if_neg hA, alLookup_alInsert, if_neg hB]
              exact hR
      · rw [if_neg hk₁] at hc₁
        obtain ⟨R, hR, hcntR⟩ := hL.2 k₁ c₁ hc₁ i₁ e₁ v₁ hrow₁
        have hkey_ne_i : (k, i) ≠ (k₁, i₁) := by
          intro hx
          exact hk₁ (congrArg Prod.fst hx)
        have hkey_ne_L : (k, c.length - 1) ≠ (k₁, i₁) := by
          intro hx
          exact hk₁ (congrArg Prod.fst hx)
        by_cases hA : last.1 = e₁
        · refine ⟨l ++ (k, i) :: r, ?_, ?_⟩
          · rw [alLookup_alInsert, if_pos hA]
          · have hReq : R = refs₀ := by
              rw [hA] at h₀
              rw [h₀] at hR
              exact (Option.some_inj.mp hR).symm
            have h2 := hcX' (k₁, i₁)
            have h3 := hcX (k₁, i₁)
            rw [if_neg hkey_ne_i] at h2
            rw [if_neg hkey_ne_L] at h3
            have h4 := hXof (k₁, i₁) (fun hx => hk₁ (congrArg Prod.fst hx).symm)
            rw [hReq] at hcntR
            omega
        · by_cases hB : e = e₁
          · refine ⟨refs, ?_, ?_⟩
            · rw [alLookup_alInsert, if_neg hA, alLookup_alInsert, if_pos hB]
            · have hReq : R = refs ++ [(k, i)] := by
                rw [hB] at he
                rw [he] at hR
                exact (Option.some_inj.mp hR).symm
              rw [hReq] at hcntR
              have h2 := count_append_cons (k₁, i₁) (k, i) refs []
              simp only [List.count_nil] at h2
              rw [if_neg hkey_ne_i] at h2
              omega
          · refine ⟨R, ?_, hcntR⟩
            rw [alLookup_alInsert, if_neg hA, alLookup_alInsert, if_neg hB]
            exact hR
    · -- e's list lost exactly its last element
      by_cases hEe : last.1 = e
      · have hXrefs : X = refs := by
          rw [hEe, alLookup_alInsert, if_pos rfl] at hXl
          exact (Option.some_inj.mp hXl).symm
        refine ⟨l ++ (k, i) :: r, ?_, ?_⟩
        · rw [alLookup_alInsert, if_pos hEe]
        · have h2 : X.length = refs.length := by rw [hXrefs]
          rw [hXdecomp] at h2
          simp only [List.length_append, List.length_cons] at h2 ⊢
          omega
      · refine ⟨refs, ?_, rfl⟩
        rw [alLookup_alInsert, if_neg hEe, alLookup_alInsert, if_pos rfl]
    · rw [alInsert_keys_of_mem _ heml, hkeys1]
    · exact ⟨(c.set i last).dropLast, by rw [alLookup_alInsert, if_pos rfl], hperm⟩
    · intro k' hk'
      rw [alLookup_alInsert, if_neg (fun hx => hk' hx.symm)]
  · -- tail removal: i = c.length - 1; the moved row is the removed row itself
    have hieq : i = c.length - 1 := by omega
    have hnotlt : ¬ i < ((c.set i last).dropLast).length := by
      rw [hlen]
      omega
    have hlast_ev : last = (e, v) := by
      rw [← hieq] at hlast_elem
      rw [hrow] at hlast_elem
      exact (Option.some_inj.mp hlast_elem).symm
    refine ⟨⟨alInsert s.entities e refs, alInsert s.component_vecs k ((c.set i last).dropLast)⟩,
      c, v, ?_, ?_, ⟨?_, ?_⟩, hc, hrow, ?_, ?_, ?_, ?_⟩
    · simp only [Scene.entity_remove_last_component, he, List.getLast?_concat,
        List.dropLast_concat, hc, hsw]
      rw [if_neg hnotlt]
    · exact ⟨alInsert_nodup e refs hWF.1, alInsert_nodup k _ hWF.2⟩
    · -- LInv part 1
      intro e₁ refs₁ h₁ k₁ i₁ hmem₁
      rw [alLookup_alInsert] at h₁
      by_cases hB : e = e₁
      · subst hB
        rw [if_pos rfl] at h₁
        cases Option.some_inj.mp h₁
        -- refs₁ = refs
        have hmemold : (k₁, i₁) ∈ refs ++ [(k, i)] := List.mem_append_left _ hmem₁
        obtain ⟨c₁, v₁, hc₁, hrow₁⟩ := hL.1 e (refs ++ [(k, i)]) he k₁ i₁ hmemold
        have hne_ki : (k₁, i₁) ≠ (k, i) := fun hx => hnotinE (hx ▸ hmem₁)
        by_cases hk₁ : k = k₁
        · subst hk₁
          have hceq : c₁ = c := by
            rw [hc] at hc₁
            exact (Option.some_inj.mp hc₁).symm
          rw [hceq] at hrow₁
          obtain ⟨hi₁, -⟩ := List.getElem?_eq_some.mp hrow₁
          have hii : i₁ ≠ i := by
            intro hx
            exact hne_ki (by rw [hx])
          have hi₁L : i₁ < c.length - 1 := by
            rcases Nat.lt_or_ge i₁ (c.length - 1) with h | h
            · exact h
            · exfalso
              have : i₁ = c.length - 1 := by omega
              rw [this, ← hieq] at hrow₁
              rw [hrow] at hrow₁
              have := Option.some_inj.mp hrow₁
              exact hii (by omega)
          refine ⟨(c.set i last).dropLast, v₁, ?_, ?_⟩
          · rw [alLookup_alInsert, if_pos rfl]
          · rw [hcv'get i₁ hi₁L, if_neg (fun hx => hii hx.symm)]
            exact hrow₁
        · refine ⟨c₁, v₁, ?_, hrow₁⟩
          rw [alLookup_alInsert, if_neg hk₁]
          exact hc₁
      · rw [if_neg hB] at h₁
        -- e₁ untouched
        obtain ⟨c₁, v₁, hc₁, hrow₁⟩ := hL.1 e₁ refs₁ h₁ k₁ i₁ hmem₁
        by_cases hk₁ : k = k₁
        · subst hk₁
          have hceq : c₁ = c := by
            rw [hc] at hc₁
            exact (Option.some_inj.mp hc₁).symm
          rw [hceq] at hrow₁
          obtain ⟨hi₁, -⟩ := List.getElem?_eq_some.mp hrow₁
          have hii : i₁ ≠ i := by
            intro hx
            rw [hx, hrow] at hrow₁
            exact hB (congrArg Prod.fst (Option.some_inj.mp hrow₁))
          have hi₁L : i₁ < c.length - 1 := by omega
          refine ⟨(c.set i last).dropLast, v₁, ?_, ?_⟩
          · rw [alLookup_alInsert, if_pos rfl]
          · rw [hcv'get i₁ hi₁L, if_neg (fun hx => hii hx.symm)]
            exact hrow₁
        · refine ⟨c₁, v₁, ?_, hrow₁⟩
          rw [alLookup_alInsert, if_neg hk₁]
          exact hc₁
    · -- LInv part 2
      intro k₁ c₁ hc₁ i₁ e₁ v₁ hrow₁
      rw [alLookup_alInsert] at hc₁
      by_cases hk₁ : k = k₁
      · subst hk₁
        rw [if_pos rfl] at hc₁
        cases Option.some_inj.mp hc₁
        obtain ⟨hi₁, -⟩ := List.getElem?_eq_some.mp hrow₁
        rw [hlen] at hi₁
        have hii : i ≠ i₁ := by omega
        rw [hcv'get i₁ hi₁, if_neg hii] at hrow₁
        obtain ⟨R, hR, hcntR⟩ := hL.2 k c hc i₁ e₁ v₁ hrow₁
        by_cases hB : e = e₁
        · subst hB
          have hReq : R = refs ++ [(k, i)] := by
            rw [he] at hR
            exact (Option.some_inj.mp hR).symm
          refine ⟨refs, ?_, ?_⟩
          · rw [alLookup_alInsert, if_pos rfl]
          · rw [hReq] at hcntR
            have h2 := count_append_cons (k, i₁) (k, i) refs []
            simp only [List.count_nil] at h2
            rw [if_neg (by intro hx; exact hii (congrArg Prod.snd hx))] at h2
            omega
        · refine ⟨R, ?_, hcntR⟩
          rw [alLookup_alInsert, if_neg hB]
          exact hR
      · rw [if_neg hk₁] at hc₁
        obtain ⟨R, hR, hcntR⟩ := hL.2 k₁ c₁ hc₁ i₁ e₁ v₁ hrow₁
        by_cases hB : e = e₁
        · subst hB
          have hReq : R = refs ++ [(k, i)] := by
            rw [he] at hR
            exact (Option.some_inj.mp hR).symm
          refine ⟨refs, ?_, ?_⟩
          · rw [alLookup_alInsert, if_pos rfl]
          · rw [hReq] at hcntR
            have h2 := count_append_cons (k₁, i₁) (k, i) refs []
            simp only [List.count_nil] at h2
            rw [if_neg (by intro hx; exact hk₁ (congrArg Prod.fst hx))] at h2
            omega
        · refine ⟨R, ?_, hcntR⟩
          rw [alLookup_alInsert, if_neg hB]
          exact hR
    · exact ⟨refs, by rw [alLookup_alInsert, if_pos rfl], rfl⟩
    · exact alInsert_keys_of_mem refs heme
    · exact ⟨(c.set i last).dropLast, by rw [alLookup_alInsert, if_pos rfl], hperm⟩
    · intro k' hk'
      rw [alLookup_alInsert, if_neg (fun hx => hk' hx.symm)]

/-- When an entity's reference list is empty, no column row can name it
(each row is pointed at exactly once by its owner's list). -/
theorem no_rows_of_empty_refs {s : Scene} {e : Entity} (hL : s.LInv)
    (he : alLookup s.entities e = some []) {k : Key} {c : List (Entity × Val)}
    (hc : alLookup s.component_vecs k = some c) :
    c.filter (fun row => row.1 != e) = c := by
  rw [List.filter_eq_self]
  intro row hrow
  obtain ⟨j, hj⟩ := List.mem_iff_getElem?.mp hrow
  rw [bne_iff_ne]
  intro hre
  obtain ⟨refs, hre', hcnt⟩ := hL.2 k c hc j row.1 row.2 (by rw [Prod.mk.eta]; exact hj)
  rw [hre] at hre'
  rw [he] at hre'
  have : refs = [] := (Option.some_inj.mp hre').symm
  rw [this] at hcnt
  simp at hcnt

theorem removeAll_spec (n : Nat) :
    ∀ (s : Scene) (e : Entity) (refs : List (Key × Nat)),
      refs.length ≤ n → s.WF → s.LInv → alLookup s.entities e = some refs →
      ∃ s', s.removeAll e (n + 1) = some s' ∧
        s'.WF ∧ s'.LInv ∧
        alLookup s'.entities e = some [] ∧
        s'.entities.map Prod.fst = s.entities.map Prod.fst ∧
        (∀ k c, alLookup s.component_vecs k = some c →
          ∃ c', alLookup s'.component_vecs k = some c' ∧
            c'.Perm (c.filter (fun row => row.1 != e))) ∧
        (∀ k, alLookup s.component_vecs k = none → alLookup s'.component_vecs k = none) := by
  induction n with
  | zero =>
    intro s e refs hlen hWF hL he
    have hrefs : refs = [] := List.eq_nil_of_length_eq_zero (Nat.le_zero.mp hlen)
    subst hrefs
    refine ⟨s, ?_, hWF, hL, he, rfl, ?_, fun k hk => hk⟩
    · unfold Scene.removeAll
      rw [he]
      rfl
    · intro k c hc
      exact ⟨c, hc, by rw [no_rows_of_empty_refs hL he hc]⟩
  | succ n ih =>
    intro s e refs hlen hWF hL he
    by_cases hrefs : refs = []
    · subst hrefs
      refine ⟨s, ?_, hWF, hL, he, rfl, ?_, fun k hk => hk⟩
      · unfold Scene.removeAll
        rw [he]
        rfl
      · intro k c hc
        exact ⟨c, hc, by rw [no_rows_of_empty_refs hL he hc]⟩
    · -- pop the last reference
      obtain ⟨last, hgl⟩ : ∃ p, refs.getLast? = some p := by
        cases hx : refs.getLast? with
        | none => exact absurd (List.getLast?_eq_none_iff.mp hx) hrefs
        | some p => exact ⟨p, rfl⟩
      obtain ⟨k, i⟩ := last
      have hdecomp : refs = refs.dropLast ++ [(k, i)] := by
        conv_lhs => rw [← List.dropLast_append_getLast hrefs]
        have : refs.getLast hrefs = (k, i) := by
          have h2 := List.getLast?_eq_getLast refs hrefs
          rw [hgl] at h2
          exact (Option.some_inj.mp h2).symm
        rw [this]
      rw [hdecomp] at he
      obtain ⟨s₁, c, v, hrun₁, hWF₁, hL₁, hc, hrowE, ⟨refs₁, hre₁, hlen₁⟩, hkeys₁,
        ⟨c₁, hc₁, hperm₁⟩, hother₁⟩ := remove_last_step hWF hL he
      have hlen₁' : refs₁.length ≤ n := by
        have h2 : refs.length = refs.dropLast.length + 1 := by
          rw [hdecomp]
          simp
        omega
      obtain ⟨s', hrun', hWF', hL', he', hkeys', hcols', hnone'⟩ :=
        ih s₁ e refs₁ hlen₁' hWF₁ hL₁ hre₁
      refine ⟨s', ?_, hWF', hL', he', by rw [hkeys', hkeys₁], ?_, ?_⟩
      · unfold Scene.removeAll
        rw [he]
        have hne2 : (refs.dropLast ++ [(k, i)]).isEmpty = false := by
          simp
        simp only [hne2, Bool.false_eq_true, if_false, hrun₁]
        exact hrun'
      · intro k₂ c₂ hc₂
        by_cases hk₂ : k₂ = k
        · subst hk₂
          have hceq : c₂ = c := by
            rw [hc] at hc₂
            exact (Option.some_inj.mp hc₂).symm
          subst hceq
          obtain ⟨c', hcget', hcperm'⟩ := hcols' k₂ c₁ hc₁
          refine ⟨c', hcget', ?_⟩
          have hstep : (c₁.filter (fun row => row.1 != e)).Perm
              (c₂.filter (fun row => row.1 != e)) := by
            have h3 : c₂.Perm ((e, v) :: c₂.eraseIdx i) := perm_cons_eraseIdx hrowE
            have h4 : (c₂.filter (fun row => row.1 != e)).Perm
                (((e, v) :: c₂.eraseIdx i).filter (fun row => row.1 != e)) :=
              h3.filter _
            have h5 : ((e, v) :: c₂.eraseIdx i).filter (fun row => row.1 != e) =
                (c₂.eraseIdx i).filter (fun row => row.1 != e) := by
              rw [List.filter_cons]
              simp
            rw [h5] at h4
            exact (hperm₁.filter _).trans h4.symm
          exact hcperm'.trans hstep
        · obtain ⟨c', hcget', hcperm'⟩ := hcols' k₂ c₂ (by rw [hother₁ k₂ hk₂]; exact hc₂)
          exact ⟨c', hcget', hcperm'⟩
      · intro k₂ hk₂
        have hk₂ne : k₂ ≠ k := by
          intro hx
          rw [hx, hc] at hk₂
          exact Option.noConfusion hk₂
        exact hnone' k₂ (by rw [hother₁ k₂ hk₂ne]; exact hk₂)

/-- The despawn loop plus directory deletion: under the invariants,
`remove_entity` succeeds, removes the entity's directory entry and removes
exactly its rows from every owning column (up to the swap-compaction
permutation); columns never appear or disappear. -/
theorem remove_entity_spec {s : Scene} {e : Entity} {refs : List (Key × Nat)}
    (hWF : s.WF) (hL : s.LInv) (he : alLookup s.entities e = some refs) :
    ∃ s', s.remove_entity e = some s' ∧
      alLookup s'.entities e = none ∧
      (∀ k c, alLookup s.component_vecs k = some c →
        ∃ c', alLookup s'.component_vecs k = some c' ∧
          c'.Perm (c.filter (fun row => row.1 != e))) ∧
      (∀ k, alLookup s.component_vecs k = none → alLookup s'.component_vecs k = none) := by
  obtain ⟨s₁, hrun₁, hWF₁, hL₁, he₁, hkeys₁, hcols₁, hnone₁⟩ :=
    removeAll_spec refs.length s e refs (Nat.le_refl _) hWF hL he
  refine ⟨⟨alRemove s₁.entities e, s₁.component_vecs⟩, ?_, ?_, hcols₁, hnone₁⟩
  · simp only [Scene.remove_entity, he, hrun₁]
  · rw [alLookup_alRemove _ _ _ hWF₁.1, if_pos rfl]

/-! ## Claim C4 -/

/-- C4: `remove_entity` and `entity_add_component` both reject (the
`assert!` panic, modelled as `none`) any entity handle absent from the
directory — in particular handle 999 on the empty store — and on a
well-formed store a present entity is despawned completely: its directory
entry is deleted and every owning column loses exactly its rows (up to the
swap-compaction reordering), while columns of which it owns nothing only
get reordered rows of other entities removed — i.e. the filter keeps them
whole. -/
theorem c4_unknown_entity_and_despawn :
    (∀ (s : Scene) (e : Entity), s.entity_components e = none →
      (s.remove_entity e = none ∧ ∀ k v, s.entity_add_component k e v = none)) ∧
    (Scene.empty.remove_entity 999 = none ∧
      Scene.empty.entity_add_component 7 999 5 = none) ∧
    (∀ (s : Scene) (e : Entity) (refs : List (Key × Nat)),
      s.WF → s.Inv1 → s.Inv2 → s.entity_components e = some refs →
      ∃ s', s.remove_entity e = some s' ∧
        s'.entity_components e = none ∧
        (∀ k c, s.components k = some c →
          ∃ c', s'.components k = some c' ∧
            c'.Perm (c.filter (fun row => row.1 != e))) ∧
        (∀ k, s.components k = none → s'.components k = none)) := by
  refine ⟨?_, ⟨by decide, by decide⟩, ?_⟩
  · intro s e he
    simp only [Scene.entity_components] at he
    constructor
    · unfold Scene.remove_entity
      rw [he]
    · intro k v
      unfold Scene.entity_add_component
      rw [he]
  · intro s e refs hWF h1 h2 he
    simp only [Scene.entity_components] at he
    obtain ⟨s', hrun, hgone, hcols, hnone⟩ :=
      remove_entity_spec hWF (LInv_of_Inv h1 h2) he
    exact ⟨s', hrun, hgone, hcols, hnone⟩

/-- C4 witness: on the two-entity store where both entities own one key-5
component, despawning entity 0 removes its directory entry and leaves
column 5 holding exactly entity 1's row. -/
theorem c4_unknown_entity_and_despawn_witness :
    ∃ s', (Scene.mk [(0, [(5, 0)]), (1, [(5, 1)])] [(5, [(0, 1), (1, 2)])]).remove_entity 0 =
        some s' ∧
      s'.entity_components 0 = none ∧
      (∃ c', s'.components 5 = some c' ∧ c'.Perm [(1, 2)]) := by
  obtain ⟨s', hrun, hgone, hcols, -⟩ :=
    c4_unknown_entity_and_despawn.2.2
      (Scene.mk [(0, [(5, 0)]), (1, [(5, 1)])] [(5, [(0, 1), (1, 2)])]) 0 [(5, 0)]
      (by decide) (by decide) (by decide) (by decide)
  obtain ⟨c', hc', hperm'⟩ := hcols 5 [(0, 1), (1, 2)] (by decide)
  exact ⟨s', hrun, hgone, c', hc', by simpa using hperm'⟩

/-! ## Claim C10 -/

/-- C10: assuming the cross-reference invariants, the repoint branch of
`entity_remove_last_component` never hits an unreachable case: for a live
entity none of the `.unwrap()`s in it or in `update_entity` can fail — the
call always returns a value (`some`). -/
theorem c10_remove_safety (s : Scene) (e : Entity) (refs : List (Key × Nat))
    (hWF : s.WF) (h1 : s.Inv1) (h2 : s.Inv2)
    (he : s.entity_components e = some refs) :
    ∃ s', s.entity_remove_last_component e = some s' := by
  simp only [Scene.entity_components] at he
  have hL := LInv_of_Inv h1 h2
  by_cases hrefs : refs = []
  · subst hrefs
    refine ⟨s, ?_⟩
    simp only [Scene.entity_remove_last_component, he, List.getLast?]
  · obtain ⟨⟨k, i⟩, hgl⟩ : ∃ p, refs.getLast? = some p := by
      cases hx : refs.getLast? with
      | none => exact absurd (List.getLast?_eq_none_iff.mp hx) hrefs
      | some p => exact ⟨p, rfl⟩
    have hdecomp : refs = refs.dropLast ++ [(k, i)] := by
      conv_lhs => rw [← List.dropLast_append_getLast hrefs]
      have h3 : refs.getLast hrefs = (k, i) := by
        have h2 := List.getLast?_eq_getLast refs hrefs
        rw [hgl] at h2
        exact (Option.some_inj.mp h2).symm
      rw [h3]
    rw [hdecomp] at he
    obtain ⟨s', _, _, hrun, -⟩ := remove_last_step hWF hL he
    exact ⟨s', hrun⟩

/-- C10 witness: the three-entity store of the swap-remove scenario
satisfies the invariants, and removing entity 1's last component succeeds. -/
theorem c10_remove_safety_witness :
    ∃ s', (Scene.mk [(0, [(5, 0)]), (1, [(5, 1)]), (2, [(5, 2)])]
      [(5, [(0, 1), (1, 2), (2, 3)])]).entity_remove_last_component 1 = some s' :=
  c10_remove_safety
    (Scene.mk [(0, [(5, 0)]), (1, [(5, 1)]), (2, [(5, 2)])] [(5, [(0, 1), (1, 2), (2, 3)])])
    1 [(5, 1)] (by decide) (by decide) (by decide) (by decide)
